import Mathlib

/-!
# libavformat/file.c : the file, memory and pipe protocols

A shallow embedding of `libavformat/file.c`: the `memory:` backend
(`memory_open`, `memory_read`, `memory_write`, `memory_seek`, `memory_close`),
the `file:` backend (`file_open`, `file_read`, `file_write`, `file_seek`,
`file_close`), `pipe_open` and the three protocol tables, together with the C
library routines they call, followed by the properties proved about them.

Conventions of the embedding.

* A C `int` is an `Int`; a conversion to `int` is `wrapInt32`, reduction modulo
  `2 ^ 32` into `[-2 ^ 31, 2 ^ 31)`.
* A pointer is the `Int` address it denotes; pointer arithmetic is exact.
* A C string is a `List Char` (the characters before the terminating NUL); a
  null `char *` is `none`.
* The backing region of a memory stream is an address map `Int → Byte` that the
  backend only reads.  The caller's memory, into which `memory_read` stores, is
  a second address map; a buffer is an address into it.
* A C call that has undefined behaviour (here: `atoi` on a null pointer) makes
  the embedded function return `none`.
* Constants that come from headers outside the sources are the fields of a
  `Platform`; the system calls are the fields of a `Sys` over a state `σ` of the
  operating system.  Both are parameters of the embedded functions.
-/

namespace AVFormat

/-! ## Machine integers and bytes -/

/-- An `unsigned char`. -/
abbrev Byte := Fin 256

/-- Conversion of an integer value to a 32-bit two's-complement `int`. -/
def wrapInt32 (x : Int) : Int := (x + 2147483648) % 4294967296 - 2147483648

/-- The values an `int` can hold. -/
def IsInt32 (x : Int) : Prop := -2147483648 ≤ x ∧ x < 2147483648

instance (x : Int) : Decidable (IsInt32 x) := by
  unfold IsInt32; infer_instance

/-! ## Data model -/

/-- Modelled from the spec: the declaration of `MemoryStreamDefinition`
(`avformat.h`) is not in the sources.  The spec describes it as a triple
(origin pointer, current cursor, logical size in bytes); `file.c` uses the
fields `start` and `curr` as byte pointers and `size` as an integer. -/
structure MemoryStreamDefinition where
  start : Int
  curr : Int
  size : Int
  deriving DecidableEq

/-- Modelled from the spec: the declaration of `URLContext` (`avio.h`) is not in
the sources.  `file.c` touches two fields: the untyped slot `priv_data`
(`void *`, here a type parameter: a descriptor, or the stream definition it
points to) and the flag `is_streamed`. -/
structure URLContext (α : Type) where
  priv_data : α
  is_streamed : Int
  deriving DecidableEq

/-! ## C library routines used by `memory_open` -/

/-- Modelled from the spec: `av_strstart` (`libavutil/avstring.c`) is not in the
sources; the spec calls it the "strip known scheme prefix" operation.  The
result is the remainder of `str` behind the leading `pfx`, or `none` when `str`
does not start with `pfx` (the C function then leaves `*ptr` untouched). -/
def av_strstart : List Char → List Char → Option (List Char)
  | str, [] => some str
  | [], _ :: _ => none
  | c :: str, p :: pfx => if p = c then av_strstart str pfx else none

/-- The call `av_strstart(name, pfx, &name)`: `name` afterwards. -/
def strip_scheme (name pfx : List Char) : List Char :=
  (av_strstart name pfx).getD name

/-- C `strtok`, one call on the text `s` (for the first call the argument, for a
call with `NULL` the position saved by the previous call): leading delimiters
are skipped; with nothing left the result is a null pointer; otherwise the token
runs up to the next delimiter, which is overwritten by NUL, and the saved
position is the character behind it.  Returns the token and the saved
position. -/
def strtok (s delim : List Char) : Option (List Char) × List Char :=
  match s.dropWhile (fun c => delim.contains c) with
  | [] => (none, [])
  | c :: t =>
    (some ((c :: t).takeWhile (fun c => !delim.contains c)),
     ((c :: t).dropWhile (fun c => !delim.contains c)).drop 1)

/-- C `isspace` in the "C" locale: space, `\t`, `\n`, `\v`, `\f`, `\r`. -/
def isspace (c : Char) : Bool :=
  c.toNat = 32 || (9 ≤ c.toNat && c.toNat ≤ 13)

/-- The digit loop of `atoi`: accumulates decimal digits, stops at the first
character that is not one. -/
def atoi_digits : Nat → List Char → Nat
  | acc, [] => acc
  | acc, c :: t =>
    if c.isDigit then atoi_digits (acc * 10 + (c.toNat - 48)) t else acc

/-- C `atoi` on a non-null string: white space is skipped, an optional sign is
read, then the decimal digits.  A value outside `int` is undefined in C; the
model converts it to `int`, so the result is always an `int`. -/
def atoi_str (s : List Char) : Int :=
  match s.dropWhile isspace with
  | [] => wrapInt32 (atoi_digits 0 [] : Nat)
  | c :: t =>
    if c = '-' then wrapInt32 (-(atoi_digits 0 t : Nat))
    else if c = '+' then wrapInt32 (atoi_digits 0 t : Nat)
    else wrapInt32 (atoi_digits 0 (c :: t) : Nat)

/-- C `atoi`: a null argument is dereferenced, which is undefined (`none`). -/
def atoi : Option (List Char) → Option Int
  | none => none
  | some s => some (atoi_str s)

/-! ## The memory protocol -/

/-- The scheme literal `"memory:"`. -/
def memory_scheme : List Char := ['m', 'e', 'm', 'o', 'r', 'y', ':']

/-- `memory_open` (file.c:93-112).  `av_mallocz` is taken to succeed and to
yield a zeroed struct.  The two `strtok` calls split the payload at `|`; both
tokens go to `atoi` unchecked, so a missing token is a null dereference.
The `int` of the first token is stored as the address `curr`.  `flags` is not
used.  On return `priv_data` holds the new definition and the result is 0. -/
def memory_open {α : Type} (h : URLContext α) (memoryname : List Char) (_flags : Int) :
    Option (Int × URLContext MemoryStreamDefinition) :=
  let memoryname := strip_scheme memoryname memory_scheme
  let split0 := strtok memoryname ['|']
  let split1 := strtok split0.2 ['|']
  match atoi split0.1 with
  | none => none
  | some a =>
    let md : MemoryStreamDefinition := { start := 0, curr := a, size := 0 }
    let md := { md with start := md.curr }
    match atoi split1.1 with
    | none => none
    | some s =>
      let md := { md with size := s }
      some (0, { priv_data := md, is_streamed := h.is_streamed })

/-- The value first assigned to `readable` in `memory_read` (file.c:118):
`int readable = md->size - (md->curr - md->start);`. -/
def readable (md : MemoryStreamDefinition) : Int :=
  wrapInt32 (md.size - (md.curr - md.start))

/-- The copy loop of `memory_read` (file.c:126-127), `n` iterations of
`*(buf++) = *(md->curr++)`.  Returns the final `curr` and the caller's
memory. -/
def copy_loop (region : Int → Byte) : Nat → Int → Int → (Int → Byte) → Int × (Int → Byte)
  | 0, curr, _, mem => (curr, mem)
  | n + 1, curr, buf, mem =>
    copy_loop region n (curr + 1) (buf + 1) (Function.update mem buf (region curr))

/-- What a call of `memory_read` or `memory_write` leaves behind: the returned
`int`, the handle, the backing region and the caller's memory. -/
structure CallResult where
  ret : Int
  h : URLContext MemoryStreamDefinition
  region : Int → Byte
  mem : Int → Byte

/-- `memory_read` (file.c:114-130).  `region` is the backing memory, `mem` the
caller's memory and `buf` the address of the buffer in it.  The loop
`for (i = 0; i < readable; i++)` runs `readable.toNat` times. -/
def memory_read (region : Int → Byte) (h : URLContext MemoryStreamDefinition)
    (mem : Int → Byte) (buf : Int) (size : Int) : CallResult :=
  let md := h.priv_data
  let readable := readable md
  if readable ≤ 0 then
    { ret := 0, h := h, region := region, mem := mem }
  else
    let readable := if size < readable then size else readable
    let r := copy_loop region readable.toNat md.curr buf mem
    { ret := readable, h := { h with priv_data := { md with curr := r.1 } },
      region := region, mem := r.2 }

/-- `memory_write` (file.c:132-135): `return -1;` and nothing else. -/
def memory_write (region : Int → Byte) (h : URLContext MemoryStreamDefinition)
    (mem : Int → Byte) (_buf : Int) (_size : Int) : CallResult :=
  { ret := -1, h := h, region := region, mem := mem }

/-- `memory_seek` (file.c:138-143): `md->curr = md->start + pos;` then
`return (int)md->curr;`, the `int` being widened to the `offset_t` result.
`whence` is not used. -/
def memory_seek (h : URLContext MemoryStreamDefinition) (pos : Int) (_whence : Int) :
    Int × URLContext MemoryStreamDefinition :=
  let md := h.priv_data
  let md := { md with curr := md.start + pos }
  (wrapInt32 md.curr, { h with priv_data := md })

/-! ## Sequences of calls on one handle -/

/-- One call on an open memory handle. -/
inductive MemoryOp where
  | read (buf : Int) (size : Int)
  | write (buf : Int) (size : Int)
  | seek (pos : Int) (whence : Int)
  deriving DecidableEq

/-- The handle and the caller's memory between two calls. -/
structure MemoryState where
  h : URLContext MemoryStreamDefinition
  mem : Int → Byte

/-- Performs one call, dropping the returned value. -/
def MemoryOp.step (region : Int → Byte) (s : MemoryState) : MemoryOp → MemoryState
  | .read buf size =>
    let r := memory_read region s.h s.mem buf size
    { h := r.h, mem := r.mem }
  | .write buf size =>
    let r := memory_write region s.h s.mem buf size
    { h := r.h, mem := r.mem }
  | .seek pos whence => { h := (memory_seek s.h pos whence).2, mem := s.mem }

/-- Performs the calls of `ops` from left to right. -/
def run_ops (region : Int → Byte) (s : MemoryState) (ops : List MemoryOp) : MemoryState :=
  ops.foldl (MemoryOp.step region) s

/-- The cursor bounds `start <= curr <= start + size`. -/
def CursorInBounds (md : MemoryStreamDefinition) : Prop :=
  md.start ≤ md.curr ∧ md.curr ≤ md.start + md.size

instance (md : MemoryStreamDefinition) : Decidable (CursorInBounds md) := by
  unfold CursorInBounds; infer_instance

/-- Whether the call, if it is a seek, has its offset within `0 .. n`. -/
def MemoryOp.seek_within (n : Int) : MemoryOp → Bool
  | .seek pos _ => decide (0 ≤ pos ∧ pos ≤ n)
  | _ => true

/-! ## Constants and system calls that `file.c` takes from outside -/

/-- The constants that `file.c` reads from headers which are not among the
sources, as parameters: the open modes of `avio.h`, the access flags of
`<fcntl.h>` (`O_BINARY` is `none` where the platform does not define it) and
the value of the expression `AVERROR(ENOENT)`. -/
structure Platform where
  URL_RDONLY : Int
  URL_WRONLY : Int
  URL_RDWR : Int
  O_RDONLY : Int
  O_WRONLY : Int
  O_RDWR : Int
  O_CREAT : Int
  O_TRUNC : Int
  O_BINARY : Option Int
  AVERROR_ENOENT : Int

/-- The three open modes select the three branches of `file_open`: `URL_RDWR`
has a bit of its own, `URL_WRONLY` has one that `URL_RDWR` lacks, and
`URL_RDONLY` has neither. -/
def Platform.modes_distinct (k : Platform) : Prop :=
  Int.land k.URL_RDWR k.URL_RDWR ≠ 0 ∧
  Int.land k.URL_WRONLY k.URL_RDWR = 0 ∧ Int.land k.URL_WRONLY k.URL_WRONLY ≠ 0 ∧
  Int.land k.URL_RDONLY k.URL_RDWR = 0 ∧ Int.land k.URL_RDONLY k.URL_WRONLY = 0

instance (k : Platform) : Decidable k.modes_distinct := by
  unfold Platform.modes_distinct; infer_instance

/-- The values of FFmpeg's `avio.h` (`URL_RDONLY` 0, `URL_WRONLY` 1, `URL_RDWR`
2) together with those of Linux (`O_RDONLY` 0, `O_WRONLY` 1, `O_RDWR` 2,
`O_CREAT` 0100, `O_TRUNC` 01000, no `O_BINARY`, `ENOENT` 2 negated by
`AVERROR`). -/
def linux_platform : Platform :=
  { URL_RDONLY := 0, URL_WRONLY := 1, URL_RDWR := 2,
    O_RDONLY := 0, O_WRONLY := 1, O_RDWR := 2, O_CREAT := 64, O_TRUNC := 512,
    O_BINARY := none, AVERROR_ENOENT := -2 }

/-- The system calls used by `file.c`, as state transformers over the state `σ`
of the operating system.  `sys_read` and `sys_write` receive the caller's memory
and the buffer address; `sys_read` returns the memory it has stored into. -/
structure Sys (σ : Type) where
  sys_open : List Char → Int → Int → σ → Int × σ
  sys_read : Int → (Int → Byte) → Int → Int → σ → Int × (Int → Byte) × σ
  sys_write : Int → (Int → Byte) → Int → Int → σ → Int × σ
  sys_lseek : Int → Int → Int → σ → Int × σ
  sys_close : Int → σ → Int × σ
  sys_setmode : Int → Int → σ → Int × σ

/-- Conversion of an `int` argument to `size_t` (64 bits). -/
def to_size_t (x : Int) : Int := x % 18446744073709551616

/-- Saturation of a value to the range of `long` (64 bits), as `strtol` does. -/
def clamp_long (x : Int) : Int :=
  if x < -9223372036854775808 then -9223372036854775808
  else if 9223372036854775807 < x then 9223372036854775807
  else x

/-- The part of `strtol` behind the white space and the sign: `skipped`
characters have been passed, `neg` tells whether the sign was a minus.  Without
a digit nothing is converted and nothing consumed. -/
def strtol_digits (neg : Bool) (skipped : Nat) (u : List Char) : Int × Nat :=
  if (u.takeWhile Char.isDigit).length = 0 then (0, 0)
  else
    (clamp_long (if neg then -(atoi_digits 0 u : Nat) else (atoi_digits 0 u : Nat)),
     skipped + (u.takeWhile Char.isDigit).length)

/-- C `strtol(s, &final, 10)`: the value returned and the number of characters
consumed, `final - s`.  White space is skipped, an optional sign is read, then
the decimal digits; when there is no digit the value is 0 and `final = s`. -/
def strtol (s : List Char) : Int × Nat :=
  match s.dropWhile isspace with
  | [] => (0, 0)
  | c :: t =>
    if c = '-' then strtol_digits true ((s.takeWhile isspace).length + 1) t
    else if c = '+' then strtol_digits false ((s.takeWhile isspace).length + 1) t
    else strtol_digits false (s.takeWhile isspace).length (c :: t)

/-! ## The file protocol -/

/-- The scheme literal `"file:"`. -/
def file_scheme : List Char := ['f', 'i', 'l', 'e', ':']

/-- What `file_open` or `pipe_open` leaves behind: the returned `int`, the
handle and the state of the operating system. -/
structure OpenResult (σ : Type) where
  ret : Int
  h : URLContext Int
  os : σ

/-- What `file_read` or `file_write` leaves behind: the returned `int`, the
caller's memory and the state of the operating system. -/
structure TransferResult (σ : Type) where
  ret : Int
  mem : Int → Byte
  os : σ

/-- The statement `access |= O_BINARY;` (file.c:47-49), compiled only where
`O_BINARY` is defined. -/
def add_binary (k : Platform) (access : Int) : Int :=
  match k.O_BINARY with
  | some b => Int.lor access b
  | none => access

/-- The value of `access` in `file_open` (file.c:40-49). -/
def file_access (k : Platform) (flags : Int) : Int :=
  add_binary k
    (if Int.land flags k.URL_RDWR ≠ 0 then Int.lor (Int.lor k.O_CREAT k.O_TRUNC) k.O_RDWR
     else if Int.land flags k.URL_WRONLY ≠ 0 then Int.lor (Int.lor k.O_CREAT k.O_TRUNC) k.O_WRONLY
     else k.O_RDONLY)

/-- The end of `file_open` (file.c:51-54), on the descriptor and the state that
`open` has returned. -/
def file_open_finish {σ : Type} (k : Platform) (h : URLContext Int) (r : Int × σ) :
    OpenResult σ :=
  if r.1 < 0 then
    { ret := k.AVERROR_ENOENT, h := h, os := r.2 }
  else
    { ret := 0, h := { h with priv_data := r.1 }, os := r.2 }

/-- `file_open` (file.c:33-55).  The slot `priv_data` holds a pointer-sized
integer; the mode 0666 is 438. -/
def file_open {σ : Type} (k : Platform) (sys : Sys σ) (h : URLContext Int)
    (filename : List Char) (flags : Int) (os : σ) : OpenResult σ :=
  let filename := strip_scheme filename file_scheme
  let access := file_access k flags
  file_open_finish k h (sys.sys_open filename access 438 os)

/-- `file_read` (file.c:57-61): `int fd = (size_t)h->priv_data;` then
`return read(fd, buf, size);`. -/
def file_read {σ : Type} (sys : Sys σ) (h : URLContext Int) (mem : Int → Byte)
    (buf size : Int) (os : σ) : TransferResult σ :=
  let fd := wrapInt32 h.priv_data
  let r := sys.sys_read fd mem buf (to_size_t size) os
  { ret := wrapInt32 r.1, mem := r.2.1, os := r.2.2 }

/-- `file_write` (file.c:63-67): `return write(fd, buf, size);`. -/
def file_write {σ : Type} (sys : Sys σ) (h : URLContext Int) (mem : Int → Byte)
    (buf size : Int) (os : σ) : TransferResult σ :=
  let fd := wrapInt32 h.priv_data
  let r := sys.sys_write fd mem buf (to_size_t size) os
  { ret := wrapInt32 r.1, mem := mem, os := r.2 }

/-- `file_seek` (file.c:70-74): `return lseek(fd, pos, whence);`. -/
def file_seek {σ : Type} (sys : Sys σ) (h : URLContext Int) (pos whence : Int) (os : σ) :
    Int × σ :=
  let fd := wrapInt32 h.priv_data
  sys.sys_lseek fd pos whence os

/-- `file_close` (file.c:76-80): `return close(fd);`. -/
def file_close {σ : Type} (sys : Sys σ) (h : URLContext Int) (os : σ) : Int × σ :=
  let fd := wrapInt32 h.priv_data
  sys.sys_close fd os

/-- `memory_close` (file.c:145-149): frees the definition and returns 0; the
slot is left without one. -/
def memory_close (h : URLContext MemoryStreamDefinition) : Int × URLContext Unit :=
  (0, { priv_data := (), is_streamed := h.is_streamed })

/-! ## The pipe protocol -/

/-- The scheme literal `"pipe:"`. -/
def pipe_scheme : List Char := ['p', 'i', 'p', 'e', ':']

/-- `pipe_open` (file.c:162-182).  `fd = strtol(filename, &final, 10)` converts
the `long` to `int`; `filename == final` is "nothing consumed" and `*final` is
"something left behind the number".  `setmode` is called where `O_BINARY` is
defined. -/
def pipe_open {σ : Type} (k : Platform) (sys : Sys σ) (_h : URLContext Int)
    (filename : List Char) (flags : Int) (os : σ) : OpenResult σ :=
  let filename := strip_scheme filename pipe_scheme
  let r := strtol filename
  let fd := wrapInt32 r.1
  let final := filename.drop r.2
  let fd :=
    if r.2 = 0 ∨ final ≠ [] then
      if Int.land flags k.URL_WRONLY ≠ 0 then 1 else 0
    else fd
  let os :=
    match k.O_BINARY with
    | some b => (sys.sys_setmode fd b os).2
    | none => os
  { ret := 0, h := { priv_data := fd, is_streamed := 1 }, os := os }

/-! ## The protocol tables -/

/-- Modelled from the spec: the declaration of `URLProtocol` (`avio.h`) is not
in the sources.  The spec names five operations, open, read, write, seek and
close; the initialisers of `file.c` give the name first and the operations in
that order.  An entry that an initialiser leaves out is a null pointer,
`none`. -/
structure URLProtocol (O R W S C : Type) where
  name : List Char
  url_open : Option O
  url_read : Option R
  url_write : Option W
  url_seek : Option S
  url_close : Option C

/-- The type of `file_open` and `pipe_open`. -/
abbrev DescriptorOpen (σ : Type) : Type :=
  Platform → Sys σ → URLContext Int → List Char → Int → σ → OpenResult σ

/-- The type of `file_read` and `file_write`. -/
abbrev DescriptorTransfer (σ : Type) : Type :=
  Sys σ → URLContext Int → (Int → Byte) → Int → Int → σ → TransferResult σ

/-- The type of `file_seek`. -/
abbrev DescriptorSeek (σ : Type) : Type :=
  Sys σ → URLContext Int → Int → Int → σ → Int × σ

/-- The type of `file_close`. -/
abbrev DescriptorClose (σ : Type) : Type :=
  Sys σ → URLContext Int → σ → Int × σ

/-- The type of `memory_read` and `memory_write`. -/
abbrev MemoryTransfer : Type :=
  (Int → Byte) → URLContext MemoryStreamDefinition → (Int → Byte) → Int → Int → CallResult

/-- `file_protocol` (file.c:82-89). -/
def file_protocol (σ : Type) :
    URLProtocol (DescriptorOpen σ) (DescriptorTransfer σ) (DescriptorTransfer σ)
      (DescriptorSeek σ) (DescriptorClose σ) :=
  { name := ['f', 'i', 'l', 'e'],
    url_open := some file_open,
    url_read := some file_read,
    url_write := some file_write,
    url_seek := some file_seek,
    url_close := some file_close }

/-- `memory_protocol` (file.c:151-158), for contexts whose slot held an `α`
before `open`. -/
def memory_protocol (α : Type) :
    URLProtocol (URLContext α → List Char → Int → Option (Int × URLContext MemoryStreamDefinition))
      MemoryTransfer MemoryTransfer
      (URLContext MemoryStreamDefinition → Int → Int → Int × URLContext MemoryStreamDefinition)
      (URLContext MemoryStreamDefinition → Int × URLContext Unit) :=
  { name := ['m', 'e', 'm', 'o', 'r', 'y'],
    url_open := some memory_open,
    url_read := some memory_read,
    url_write := some memory_write,
    url_seek := some memory_seek,
    url_close := some memory_close }

/-- `pipe_protocol` (file.c:184-189): the initialiser stops behind `file_write`,
so the seek and close entries are null. -/
def pipe_protocol (σ : Type) :
    URLProtocol (DescriptorOpen σ) (DescriptorTransfer σ) (DescriptorTransfer σ)
      (DescriptorSeek σ) (DescriptorClose σ) :=
  { name := ['p', 'i', 'p', 'e'],
    url_open := some pipe_open,
    url_read := some file_read,
    url_write := some file_write,
    url_seek := none,
    url_close := none }

/-! ## A model of the system calls on regular files -/

/-- An open file description: the file it refers to, the file offset and the
access mode it was opened with. -/
structure OpenFile where
  path : List Char
  pos : Nat
  can_read : Bool
  can_write : Bool
  deriving DecidableEq

/-- The state of the operating system as far as the file protocol sees it: the
contents of the regular files by path, the paths that may not be opened, the
descriptor table and the next descriptor to hand out. -/
structure OS where
  disk : List Char → Option (List Byte)
  locked : List Char → Bool
  fds : Int → Option OpenFile
  next_fd : Nat

/-- POSIX `open` with the Linux flag values: the access mode is `access & 3`,
`O_CREAT` is 64 and `O_TRUNC` is 512.  It fails (-1) on a locked path (EACCES),
on a missing file without `O_CREAT` (ENOENT), on the access mode 3 (EINVAL) and
when no descriptor is left (EMFILE).  Otherwise the file exists afterwards,
emptied by `O_TRUNC` when opened for writing, and a new description at offset 0
is returned. -/
def linux_open (path : List Char) (access _mode : Int) (os : OS) : Int × OS :=
  if os.locked path then (-1, os)
  else if (os.disk path).isNone ∧ Int.land access 64 = 0 then (-1, os)
  else if Int.land access 3 = 3 then (-1, os)
  else if 2147483647 ≤ os.next_fd then (-1, os)
  else
    let can_write : Bool := Int.land access 3 = 1 ∨ Int.land access 3 = 2
    let can_read : Bool := Int.land access 3 = 0 ∨ Int.land access 3 = 2
    let data := if Int.land access 512 ≠ 0 ∧ can_write = true then [] else (os.disk path).getD []
    ((os.next_fd : Int),
     { disk := Function.update os.disk path (some data),
       locked := os.locked,
       fds := Function.update os.fds (os.next_fd : Int)
         (some { path := path, pos := 0, can_read := can_read, can_write := can_write }),
       next_fd := os.next_fd + 1 })

/-- The bytes of the caller's memory at `buf, buf + 1, ..., buf + n - 1`. -/
def load_bytes (mem : Int → Byte) (buf : Int) (n : Nat) : List Byte :=
  (List.range n).map (fun (i : Nat) => mem (buf + (i : Int)))

/-- The caller's memory with the bytes `bs` stored from `buf` on. -/
def store_bytes (mem : Int → Byte) (buf : Int) : List Byte → (Int → Byte)
  | [] => mem
  | b :: bs => store_bytes (Function.update mem buf b) (buf + 1) bs

/-- POSIX `write` on a regular file: `count` bytes go to the file at the file
offset (a gap behind the end is filled with zero bytes), the offset advances
and `count` is returned.  A descriptor that is not open for writing gives -1. -/
def linux_write (fd : Int) (mem : Int → Byte) (buf count : Int) (os : OS) : Int × OS :=
  match os.fds fd with
  | none => (-1, os)
  | some f =>
    if f.can_write = false then (-1, os)
    else
      let bytes := load_bytes mem buf count.toNat
      let old := (os.disk f.path).getD []
      let padded := old ++ List.replicate (f.pos - old.length) (0 : Byte)
      let data := padded.take f.pos ++ bytes ++ padded.drop (f.pos + bytes.length)
      (count,
       { os with
         disk := Function.update os.disk f.path (some data),
         fds := Function.update os.fds fd (some { f with pos := f.pos + bytes.length }) })

/-- POSIX `read` on a regular file: up to `count` bytes from the file offset
are stored at `buf`, the offset advances and the number of bytes is returned, 0
at the end of the file.  A descriptor that is not open for reading gives -1. -/
def linux_read (fd : Int) (mem : Int → Byte) (buf count : Int) (os : OS) :
    Int × (Int → Byte) × OS :=
  match os.fds fd with
  | none => (-1, mem, os)
  | some f =>
    if f.can_read = false then (-1, mem, os)
    else
      let bytes := (((os.disk f.path).getD []).drop f.pos).take count.toNat
      ((bytes.length : Int), store_bytes mem buf bytes,
       { os with fds := Function.update os.fds fd (some { f with pos := f.pos + bytes.length }) })

/-- POSIX `lseek` on a regular file, with `SEEK_SET` 0, `SEEK_CUR` 1 and
`SEEK_END` 2: the new offset is returned; a negative offset or another `whence`
gives -1. -/
def linux_lseek (fd : Int) (pos whence : Int) (os : OS) : Int × OS :=
  match os.fds fd with
  | none => (-1, os)
  | some f =>
    let target : Option Int :=
      if whence = 0 then some pos
      else if whence = 1 then some ((f.pos : Int) + pos)
      else if whence = 2 then some ((((os.disk f.path).getD []).length : Int) + pos)
      else none
    match target with
    | none => (-1, os)
    | some t =>
      if t < 0 then (-1, os)
      else (t, { os with fds := Function.update os.fds fd (some { f with pos := t.toNat }) })

/-- POSIX `close`: the descriptor leaves the table; -1 when it is not open. -/
def linux_close (fd : Int) (os : OS) : Int × OS :=
  match os.fds fd with
  | none => (-1, os)
  | some _ => (0, { os with fds := Function.update os.fds fd none })

/-- The model of the system calls; `setmode` does not exist on Linux and is
never called there. -/
def linux_sys : Sys OS :=
  { sys_open := linux_open,
    sys_read := linux_read,
    sys_write := linux_write,
    sys_lseek := linux_lseek,
    sys_close := linux_close,
    sys_setmode := fun _ _ os => (-1, os) }

/-! ## A round trip through a file -/

/-- What the four calls of a round trip return, and the caller's memory behind
the last one. -/
structure RoundTrip where
  open_ret : Int
  write_ret : Int
  seek_ret : Int
  read_ret : Int
  mem : Int → Byte

/-- `file_open`, then `file_write` of `size` bytes from `buf` in `mem`, then
`file_seek` to offset 0 with `whence` 0 (`SEEK_SET`), then `file_read` of
`size` bytes to `buf2` in `mem2`, all on the handle that `file_open` left. -/
def round_trip {σ : Type} (k : Platform) (sys : Sys σ) (h : URLContext Int)
    (name : List Char) (flags : Int) (mem mem2 : Int → Byte) (buf buf2 size : Int) (os : σ) :
    RoundTrip :=
  let o := file_open k sys h name flags os
  let w := file_write sys o.h mem buf size o.os
  let s := file_seek sys o.h 0 0 w.os
  let r := file_read sys o.h mem2 buf2 size s.2
  { open_ret := o.ret, write_ret := w.ret, seek_ret := s.1, read_ret := r.ret, mem := r.mem }

/-! ## Texts that `strtol` converts in full -/

/-- Whether the text is, from its first to its last character, a base-10 integer
in the form `strtol` accepts: optional white space, an optional sign, then one
or more digits and nothing behind them. -/
def is_integer_text (s : List Char) : Bool :=
  match s.dropWhile isspace with
  | [] => false
  | c :: t =>
    if c = '-' ∨ c = '+' then (!t.isEmpty && t.all Char.isDigit)
    else (c :: t).all Char.isDigit

/-! ## Reading a memory stream in chunks -/

/-- The bytes a `memory_read` into `buf` has delivered: as many bytes of the
caller's memory, from `buf` on, as the call returned. -/
def delivered (r : CallResult) (buf : Int) : List Byte :=
  load_bytes r.mem buf r.ret.toNat

/-- Successive `memory_read` calls, one for each request (buffer address,
size), each on the handle the previous one left.  For every call the returned
count and the bytes delivered. -/
def read_chunks (region : Int → Byte) : MemoryState → List (Int × Int) → List (Int × List Byte)
  | _, [] => []
  | s, q :: rest =>
    ((memory_read region s.h s.mem q.1 q.2).ret,
      delivered (memory_read region s.h s.mem q.1 q.2) q.1) ::
      read_chunks region
        { h := (memory_read region s.h s.mem q.1 q.2).h,
          mem := (memory_read region s.h s.mem q.1 q.2).mem } rest

/-! ## Decimal numerals, as the address grammar describes them -/

/-- The number that a string of decimal digits denotes, most significant digit
first. -/
def decimal_value (ds : List Char) : Nat :=
  Nat.ofDigits 10 (ds.reverse.map (fun c => c.toNat - 48))

/-- A non-empty string of decimal digits. -/
def IsDigits (ds : List Char) : Prop := ds ≠ [] ∧ ∀ c ∈ ds, c.isDigit = true

instance (ds : List Char) : Decidable (IsDigits ds) := by
  unfold IsDigits; infer_instance

/-- The text of a base-10 integer: the digits `ds`, behind a minus sign when
`neg` is set. -/
def numeral (neg : Bool) (ds : List Char) : List Char :=
  if neg then '-' :: ds else ds

/-- The integer that `numeral neg ds` denotes. -/
def numeral_value (neg : Bool) (ds : List Char) : Int :=
  if neg then -(decimal_value ds : Int) else (decimal_value ds : Int)

/-! ## Test data -/

/-- A sample backing region: the byte at address `a` is `a mod 256`. -/
def sample_region : Int → Byte := fun a => Fin.ofNat (a % 256).toNat

/-- A caller memory filled with zero bytes. -/
def zero_mem : Int → Byte := fun _ => 0

/-- A context before `open`, with nothing in `priv_data`. -/
def fresh_context : URLContext Unit := { priv_data := (), is_streamed := 0 }

/-- A context before `open` whose slot holds a null pointer. -/
def null_context : URLContext Int := { priv_data := 0, is_streamed := 0 }

/-- An operating system with no file, no locked path except `"/locked"`, no open
descriptor besides the three standard streams. -/
def empty_os : OS :=
  { disk := fun _ => none,
    locked := fun p => p = ("/locked").toList,
    fds := fun _ => none,
    next_fd := 3 }

/-! ## Auxiliary facts -/

theorem wrapInt32_eq_self {x : Int} (hx : IsInt32 x) : wrapInt32 x = x := by
  unfold IsInt32 at hx
  unfold wrapInt32
  omega

theorem wrapInt32_isInt32 (x : Int) : IsInt32 (wrapInt32 x) := by
  unfold IsInt32 wrapInt32
  omega

theorem wrapInt32_le_of_nonneg {x : Int} (hx : 0 ≤ x) : wrapInt32 x ≤ x := by
  unfold wrapInt32
  omega

theorem wrapInt32_eq_self_iff (x : Int) : wrapInt32 x = x ↔ IsInt32 x := by
  unfold IsInt32 wrapInt32
  omega

/-- Where the subtraction of file.c:118 stays within `int`, `readable` is its
exact value. -/
theorem readable_eq_of_isInt32 (md : MemoryStreamDefinition)
    (hx : IsInt32 (md.size - (md.curr - md.start))) :
    readable md = md.size - (md.curr - md.start) :=
  wrapInt32_eq_self hx

theorem copy_loop_curr (region : Int → Byte) (n : Nat) (curr buf : Int) (mem : Int → Byte) :
    (copy_loop region n curr buf mem).1 = curr + n := by
  induction n generalizing curr buf mem with
  | zero => simp [copy_loop]
  | succ n ih =>
    rw [copy_loop, ih]
    push_cast
    omega

theorem copy_loop_frame (region : Int → Byte) (n : Nat) (curr buf : Int) (mem : Int → Byte)
    (a : Int) (ha : a < buf ∨ buf + n ≤ a) :
    (copy_loop region n curr buf mem).2 a = mem a := by
  induction n generalizing curr buf mem with
  | zero => simp [copy_loop]
  | succ n ih =>
    rw [copy_loop, ih]
    · have hne : a ≠ buf := by
        push_cast at ha
        omega
      simp [Function.update, hne]
    · push_cast at ha
      omega

theorem copy_loop_copied (region : Int → Byte) (n : Nat) (curr buf : Int) (mem : Int → Byte)
    (i : Nat) (hi : i < n) :
    (copy_loop region n curr buf mem).2 (buf + i) = region (curr + i) := by
  induction n generalizing curr buf mem i with
  | zero => omega
  | succ n ih =>
    rw [copy_loop]
    cases i with
    | zero =>
      rw [copy_loop_frame]
      · simp [Function.update]
      · left
        simp
    | succ j =>
      have h := ih (curr + 1) (buf + 1) (Function.update mem buf (region curr)) j (by omega)
      have e1 : buf + ((j + 1 : Nat) : Int) = buf + 1 + (j : Int) := by
        push_cast
        omega
      have e2 : curr + ((j + 1 : Nat) : Int) = curr + 1 + (j : Int) := by
        push_cast
        omega
      rw [e1, e2]
      exact h

/-- The branch of `memory_read` taken when nothing is readable. -/
theorem memory_read_of_not_readable (region : Int → Byte)
    (h : URLContext MemoryStreamDefinition) (mem : Int → Byte) (buf size : Int)
    (hr : readable h.priv_data ≤ 0) :
    memory_read region h mem buf size = { ret := 0, h := h, region := region, mem := mem } := by
  simp [memory_read, hr]

/-- The branch of `memory_read` taken when something is readable. -/
theorem memory_read_of_readable (region : Int → Byte)
    (h : URLContext MemoryStreamDefinition) (mem : Int → Byte) (buf size : Int)
    (hr : 0 < readable h.priv_data) :
    memory_read region h mem buf size =
      { ret := min size (readable h.priv_data),
        h := { priv_data :=
                 { start := h.priv_data.start,
                   curr := h.priv_data.curr + max (min size (readable h.priv_data)) 0,
                   size := h.priv_data.size },
               is_streamed := h.is_streamed },
        region := region,
        mem := (copy_loop region (min size (readable h.priv_data)).toNat
                  h.priv_data.curr buf mem).2 } := by
  have hn : ¬ readable h.priv_data ≤ 0 := by omega
  have hk : (if size < readable h.priv_data then size else readable h.priv_data)
      = min size (readable h.priv_data) := by
    split <;> omega
  simp only [memory_read, hn, if_false, hk, copy_loop_curr]
  have ht : ((min size (readable h.priv_data)).toNat : Int)
      = max (min size (readable h.priv_data)) 0 := by
    omega
  rw [ht]

theorem memory_read_start_size (region : Int → Byte) (h : URLContext MemoryStreamDefinition)
    (mem : Int → Byte) (buf size : Int) :
    (memory_read region h mem buf size).h.priv_data.start = h.priv_data.start ∧
    (memory_read region h mem buf size).h.priv_data.size = h.priv_data.size ∧
    (memory_read region h mem buf size).h.is_streamed = h.is_streamed := by
  by_cases hr : readable h.priv_data ≤ 0
  · rw [memory_read_of_not_readable region h mem buf size hr]
    exact ⟨rfl, rfl, rfl⟩
  · rw [memory_read_of_readable region h mem buf size (by omega)]
    exact ⟨rfl, rfl, rfl⟩

/-- One `memory_read` keeps a cursor that is within bounds within bounds, and
never moves it backwards. -/
theorem memory_read_keeps_bounds (region : Int → Byte) (h : URLContext MemoryStreamDefinition)
    (mem : Int → Byte) (buf size : Int) (hb : CursorInBounds h.priv_data) :
    CursorInBounds (memory_read region h mem buf size).h.priv_data ∧
    h.priv_data.curr ≤ (memory_read region h mem buf size).h.priv_data.curr := by
  unfold CursorInBounds at hb ⊢
  by_cases hr : readable h.priv_data ≤ 0
  · rw [memory_read_of_not_readable region h mem buf size hr]
    simp only
    omega
  · rw [memory_read_of_readable region h mem buf size (by omega)]
    have hw := wrapInt32_le_of_nonneg
      (show 0 ≤ h.priv_data.size - (h.priv_data.curr - h.priv_data.start) by omega)
    unfold readable at hr ⊢
    simp only
    omega

theorem step_start_size (region : Int → Byte) (s : MemoryState) (op : MemoryOp) :
    (op.step region s).h.priv_data.start = s.h.priv_data.start ∧
    (op.step region s).h.priv_data.size = s.h.priv_data.size ∧
    (op.step region s).h.is_streamed = s.h.is_streamed := by
  cases op with
  | read buf size => exact memory_read_start_size region s.h s.mem buf size
  | write buf size => exact ⟨rfl, rfl, rfl⟩
  | seek pos whence => exact ⟨rfl, rfl, rfl⟩

theorem run_ops_start_size (region : Int → Byte) (ops : List MemoryOp) (s : MemoryState) :
    (run_ops region s ops).h.priv_data.start = s.h.priv_data.start ∧
    (run_ops region s ops).h.priv_data.size = s.h.priv_data.size ∧
    (run_ops region s ops).h.is_streamed = s.h.is_streamed := by
  induction ops generalizing s with
  | nil => exact ⟨rfl, rfl, rfl⟩
  | cons op ops ih =>
    have h1 := step_start_size region s op
    have h2 := ih (op.step region s)
    simp only [run_ops, List.foldl_cons] at h2 ⊢
    exact ⟨h2.1.trans h1.1, h2.2.1.trans h1.2.1, h2.2.2.trans h1.2.2⟩

theorem step_keeps_bounds (region : Int → Byte) (s : MemoryState) (op : MemoryOp)
    (hb : CursorInBounds s.h.priv_data)
    (hs : op.seek_within s.h.priv_data.size = true) :
    CursorInBounds (op.step region s).h.priv_data := by
  cases op with
  | read buf size => exact (memory_read_keeps_bounds region s.h s.mem buf size hb).1
  | write buf size => exact hb
  | seek pos whence =>
    simp only [MemoryOp.seek_within, decide_eq_true_eq] at hs
    unfold CursorInBounds
    simp only [MemoryOp.step, memory_seek]
    omega

theorem run_ops_keeps_bounds (region : Int → Byte) (ops : List MemoryOp) (s : MemoryState)
    (hb : CursorInBounds s.h.priv_data)
    (hs : ∀ op ∈ ops, op.seek_within s.h.priv_data.size = true) :
    CursorInBounds (run_ops region s ops).h.priv_data := by
  induction ops generalizing s with
  | nil => exact hb
  | cons op ops ih =>
    have h1 := step_start_size region s op
    have hb1 := step_keeps_bounds region s op hb (hs op (List.mem_cons_self _ _))
    have h2 := ih (op.step region s) hb1
      (by
        intro o ho
        rw [h1.2.1]
        exact hs o (List.mem_cons_of_mem _ ho))
    simpa only [run_ops, List.foldl_cons] using h2

/-- What `memory_open` leaves in the handle whenever it returns: the result is
0, `curr = start`, both parsed numbers are values of `int`, and `is_streamed`
is the one of the context passed in. -/
theorem memory_open_some {α : Type} (h0 : URLContext α) (name : List Char) (flags r : Int)
    (h : URLContext MemoryStreamDefinition) (ho : memory_open h0 name flags = some (r, h)) :
    r = 0 ∧ h.priv_data.curr = h.priv_data.start ∧ IsInt32 h.priv_data.start ∧
    IsInt32 h.priv_data.size ∧ h.is_streamed = h0.is_streamed := by
  unfold memory_open at ho
  simp only at ho
  split at ho
  · exact absurd ho (by simp)
  · rename_i a ha
    split at ho
    · exact absurd ho (by simp)
    · rename_i sz hsz
      have e := Option.some.inj ho
      have e1 : r = 0 := (congrArg Prod.fst e).symm
      have e2 := congrArg Prod.snd e
      simp only at e2
      subst e2
      have ra : IsInt32 a := by
        cases hx : (strtok (strip_scheme name memory_scheme) ['|']).1 with
        | none => rw [hx] at ha; simp [atoi] at ha
        | some t =>
          rw [hx] at ha
          simp only [atoi, Option.some.injEq] at ha
          rw [← ha]
          unfold atoi_str
          split
          · exact wrapInt32_isInt32 _
          · split_ifs <;> exact wrapInt32_isInt32 _
      have rs : IsInt32 sz := by
        cases hx : (strtok (strtok (strip_scheme name memory_scheme) ['|']).2 ['|']).1 with
        | none => rw [hx] at hsz; simp [atoi] at hsz
        | some t =>
          rw [hx] at hsz
          simp only [atoi, Option.some.injEq] at hsz
          rw [← hsz]
          unfold atoi_str
          split
          · exact wrapInt32_isInt32 _
          · split_ifs <;> exact wrapInt32_isInt32 _
      exact ⟨e1, rfl, ra, rs, rfl⟩

theorem av_strstart_append (p s : List Char) : av_strstart (p ++ s) p = some s := by
  induction p with
  | nil => cases s <;> rfl
  | cons c p ih => simp [av_strstart, ih]

theorem strip_scheme_append (p s : List Char) : strip_scheme (p ++ s) p = s := by
  simp [strip_scheme, av_strstart_append]

/-- One `strtok` call on a non-empty token followed by a delimiter. -/
theorem strtok_token (t rest delim : List Char) (d : Char) (ht : t ≠ [])
    (hnd : ∀ c ∈ t, delim.contains c = false) (hd : delim.contains d = true) :
    strtok (t ++ d :: rest) delim = (some t, rest) := by
  cases t with
  | nil => exact absurd rfl ht
  | cons c t =>
    have hc : delim.contains c = false := hnd c (List.mem_cons_self _ _)
    have hp : ∀ a ∈ c :: t, (fun c => !delim.contains c) a = true := by
      intro a ha
      show (!delim.contains a) = true
      rw [hnd a ha]
      rfl
    unfold strtok
    have hq : ¬ (fun c => !delim.contains c) d = true := by
      show ¬ (!delim.contains d) = true
      rw [hd]
      decide
    rw [List.cons_append, List.dropWhile_cons_of_neg (by rw [hc]; exact Bool.false_ne_true)]
    simp only
    rw [← List.cons_append, List.takeWhile_append_of_pos hp, List.dropWhile_append_of_pos hp,
      @List.takeWhile_cons_of_neg _ (fun c => !delim.contains c) d rest hq,
      @List.dropWhile_cons_of_neg _ (fun c => !delim.contains c) d rest hq]
    simp

/-- One `strtok` call on a non-empty token that ends the text. -/
theorem strtok_last (t delim : List Char) (ht : t ≠ [])
    (hnd : ∀ c ∈ t, delim.contains c = false) :
    strtok t delim = (some t, []) := by
  cases t with
  | nil => exact absurd rfl ht
  | cons c t =>
    have hc : delim.contains c = false := hnd c (List.mem_cons_self _ _)
    have hp : ∀ a ∈ c :: t, (fun c => !delim.contains c) a = true := by
      intro a ha
      show (!delim.contains a) = true
      rw [hnd a ha]
      rfl
    unfold strtok
    rw [List.dropWhile_cons_of_neg (by rw [hc]; exact Bool.false_ne_true)]
    simp only
    rw [List.takeWhile_eq_self_iff.mpr hp, List.dropWhile_eq_nil_iff.mpr hp]
    rfl

theorem decimal_value_cons (c : Char) (t : List Char) :
    decimal_value (c :: t) = (c.toNat - 48) * 10 ^ t.length + decimal_value t := by
  unfold decimal_value
  rw [List.reverse_cons, List.map_append, Nat.ofDigits_append, List.map_singleton,
    Nat.ofDigits_singleton, List.length_map, List.length_reverse]
  ring

/-- The digit loop of `atoi` computes the value of a digit string. -/
theorem atoi_digits_eq (ds : List Char) (hd : ∀ c ∈ ds, c.isDigit = true) (acc : Nat) :
    atoi_digits acc ds = acc * 10 ^ ds.length + decimal_value ds := by
  induction ds generalizing acc with
  | nil => simp [atoi_digits, decimal_value]
  | cons c t ih =>
    have hc : c.isDigit = true := hd c (List.mem_cons_self _ _)
    rw [atoi_digits, if_pos hc, ih (fun a ha => hd a (List.mem_cons_of_mem _ ha)),
      decimal_value_cons, List.length_cons]
    ring

theorem isDigit_not_special (c : Char) (hc : c.isDigit = true) :
    isspace c = false ∧ c ≠ '-' ∧ c ≠ '+' ∧ c ≠ '|' := by
  have h1 : 48 ≤ c.toNat ∧ c.toNat ≤ 57 := by
    simp only [Char.isDigit, Bool.and_eq_true, decide_eq_true_eq] at hc
    exact ⟨hc.1, hc.2⟩
  refine ⟨?_, ?_, ?_, ?_⟩
  · simp only [isspace, Bool.or_eq_false_iff, decide_eq_false_iff_not, Bool.and_eq_false_imp,
      decide_eq_true_eq]
    omega
  · rintro rfl
    revert h1
    decide
  · rintro rfl
    revert h1
    decide
  · rintro rfl
    revert h1
    decide

/-- C `atoi` on the text of a base-10 integer yields the integer, converted to
`int`. -/
theorem atoi_str_numeral (neg : Bool) (ds : List Char) (hd : IsDigits ds) :
    atoi_str (numeral neg ds) = wrapInt32 (numeral_value neg ds) := by
  obtain ⟨hne, hall⟩ := hd
  have hv : atoi_digits 0 ds = decimal_value ds := by
    rw [atoi_digits_eq ds hall 0]
    simp
  cases neg with
  | true =>
    have hs : isspace '-' = false := by decide
    simp only [numeral, numeral_value, if_true, atoi_str]
    rw [List.dropWhile_cons_of_neg (by simp [hs])]
    simp only [if_true, hv]
  | false =>
    cases ds with
    | nil => exact absurd rfl hne
    | cons c t =>
      obtain ⟨h1, h2, h3, -⟩ := isDigit_not_special c (hall c (List.mem_cons_self _ _))
      simp only [numeral, numeral_value, Bool.false_eq_true, if_false, atoi_str]
      rw [List.dropWhile_cons_of_neg (by simp [h1])]
      simp only [if_neg h2, if_neg h3, hv]

theorem numeral_ne_nil (neg : Bool) (ds : List Char) (hd : IsDigits ds) :
    numeral neg ds ≠ [] := by
  cases neg with
  | true => simp [numeral]
  | false => simpa [numeral] using hd.1

theorem numeral_no_bar (neg : Bool) (ds : List Char) (hd : IsDigits ds) :
    ∀ c ∈ numeral neg ds, ['|'].contains c = false := by
  intro c hc
  have hdig : ∀ c ∈ ds, ['|'].contains c = false := by
    intro c hc
    have := (isDigit_not_special c (hd.2 c hc)).2.2.2
    simp [this]
  cases neg with
  | true =>
    simp only [numeral, if_true, List.mem_cons] at hc
    rcases hc with rfl | hc
    · decide
    · exact hdig c hc
  | false =>
    simp only [numeral, Bool.false_eq_true, if_false] at hc
    exact hdig c hc

/-- Every byte that a `memory_read` reports as delivered is the region byte at
the corresponding address behind the old cursor. -/
theorem memory_read_delivers (region : Int → Byte) (h : URLContext MemoryStreamDefinition)
    (mem : Int → Byte) (buf size : Int) (i : Nat)
    (hi : (i : Int) < (memory_read region h mem buf size).ret) :
    (memory_read region h mem buf size).mem (buf + i) = region (h.priv_data.curr + i) := by
  by_cases hr : readable h.priv_data ≤ 0
  · rw [memory_read_of_not_readable region h mem buf size hr] at hi
    simp only at hi
    omega
  · rw [memory_read_of_readable region h mem buf size (by omega)] at hi ⊢
    simp only at hi ⊢
    exact copy_loop_copied region _ _ _ _ i (by omega)

/-- The returned value and the handle left by `memory_read` do not depend on
the caller's memory or on the buffer address. -/
theorem memory_read_ret_h (region : Int → Byte) (h : URLContext MemoryStreamDefinition)
    (mem1 mem2 : Int → Byte) (buf1 buf2 size : Int) :
    (memory_read region h mem1 buf1 size).ret = (memory_read region h mem2 buf2 size).ret ∧
    (memory_read region h mem1 buf1 size).h = (memory_read region h mem2 buf2 size).h := by
  by_cases hr : readable h.priv_data ≤ 0
  · rw [memory_read_of_not_readable region h mem1 buf1 size hr,
      memory_read_of_not_readable region h mem2 buf2 size hr]
    exact ⟨rfl, rfl⟩
  · rw [memory_read_of_readable region h mem1 buf1 size (by omega),
      memory_read_of_readable region h mem2 buf2 size (by omega)]
    exact ⟨rfl, rfl⟩

theorem load_bytes_append (f : Int → Byte) (a : Int) (p q : Nat) :
    load_bytes f a (p + q) = load_bytes f a p ++ load_bytes f (a + p) q := by
  unfold load_bytes
  rw [List.range_add, List.map_append, List.map_map]
  congr 1
  apply List.map_congr_left
  intro i _
  simp only [Function.comp]
  congr 1
  push_cast
  ring

theorem load_bytes_length (f : Int → Byte) (a : Int) (n : Nat) :
    (load_bytes f a n).length = n := by
  simp [load_bytes]

/-- The bytes delivered by a `memory_read` are the region bytes behind the old
cursor. -/
theorem delivered_eq (region : Int → Byte) (h : URLContext MemoryStreamDefinition)
    (mem : Int → Byte) (buf size : Int) :
    delivered (memory_read region h mem buf size) buf
      = load_bytes region h.priv_data.curr (memory_read region h mem buf size).ret.toNat := by
  unfold delivered load_bytes
  apply List.map_congr_left
  intro i hi
  rw [List.mem_range] at hi
  exact memory_read_delivers region h mem buf size i (by omega)

/-- The returned value and the new cursor of a `memory_read`, by the sign of
`readable`. -/
theorem memory_read_ret_curr (region : Int → Byte) (h : URLContext MemoryStreamDefinition)
    (mem : Int → Byte) (buf size : Int) :
    (readable h.priv_data ≤ 0 →
      (memory_read region h mem buf size).ret = 0 ∧
      (memory_read region h mem buf size).h.priv_data.curr = h.priv_data.curr) ∧
    (0 < readable h.priv_data →
      (memory_read region h mem buf size).ret = min size (readable h.priv_data) ∧
      (memory_read region h mem buf size).h.priv_data.curr
        = h.priv_data.curr + max (min size (readable h.priv_data)) 0) := by
  constructor
  · intro hr
    rw [memory_read_of_not_readable region h mem buf size hr]
    exact ⟨rfl, rfl⟩
  · intro hr
    rw [memory_read_of_readable region h mem buf size hr]
    exact ⟨rfl, rfl⟩

theorem sum_sizes_nonneg (reqs : List (Int × Int)) (hpos : ∀ q ∈ reqs, 0 < q.2) :
    0 ≤ (reqs.map Prod.snd).sum := by
  induction reqs with
  | nil => simp
  | cons q rest ih =>
    have h1 := hpos q (List.mem_cons_self _ _)
    have h2 := ih (fun x hx => hpos x (List.mem_cons_of_mem _ hx))
    simp only [List.map_cons, List.sum_cons]
    omega

/-- Chunked reading from a cursor `c` bytes into a region of `n` bytes: the
bytes delivered are the next `min(total, n - c)` region bytes and the counts
returned add up to that number. -/
theorem read_chunks_from (region : Int → Byte) (a n : Int) (hn : IsInt32 n)
    (reqs : List (Int × Int)) (hpos : ∀ q ∈ reqs, 0 < q.2) :
    ∀ (s : MemoryState) (c : Int), s.h.priv_data.start = a → s.h.priv_data.size = n →
      s.h.priv_data.curr = a + c → 0 ≤ c → c ≤ n →
      ((read_chunks region s reqs).map Prod.snd).flatten
        = load_bytes region (a + c) (min (reqs.map Prod.snd).sum (n - c)).toNat ∧
      ((read_chunks region s reqs).map Prod.fst).sum = min (reqs.map Prod.snd).sum (n - c) ∧
      (n - c ≤ 0 → ∀ x ∈ (read_chunks region s reqs).map Prod.fst, x = 0) ∧
      List.Pairwise (fun x y => x = 0 → y = 0) ((read_chunks region s reqs).map Prod.fst) := by
  induction reqs with
  | nil =>
    intro s c _ _ _ hc0 hcn
    have e : (min (0 : Int) (n - c)).toNat = 0 := by omega
    simp only [read_chunks, List.map_nil, List.flatten_nil, List.sum_nil, e]
    refine ⟨by simp [load_bytes], by omega, ?_, List.Pairwise.nil⟩
    intro _ x hx
    simp at hx
  | cons q rest ih =>
    intro s c hst hsi hcu hc0 hcn
    have hq : 0 < q.2 := hpos q (List.mem_cons_self _ _)
    have hrest : ∀ x ∈ rest, 0 < x.2 := fun x hx => hpos x (List.mem_cons_of_mem _ hx)
    have htot := sum_sizes_nonneg rest hrest
    have hrd : readable s.h.priv_data = n - c := by
      unfold readable
      rw [hst, hsi, hcu]
      have e : n - (a + c - a) = n - c := by omega
      rw [e]
      apply wrapInt32_eq_self
      unfold IsInt32 at hn ⊢
      omega
    obtain ⟨hA, hB⟩ := memory_read_ret_curr region s.h s.mem q.1 q.2
    obtain ⟨hs1, hs2, -⟩ := memory_read_start_size region s.h s.mem q.1 q.2
    have hdel := delivered_eq region s.h s.mem q.1 q.2
    rw [hrd] at hA hB
    rw [hst] at hs1
    rw [hsi] at hs2
    rw [hcu] at hdel
    simp only [read_chunks, List.map_cons, List.flatten_cons, List.sum_cons, List.pairwise_cons]
    generalize memory_read region s.h s.mem q.1 q.2 = r at hA hB hs1 hs2 hdel ⊢
    by_cases hz : n - c ≤ 0
    · obtain ⟨hret, hcur⟩ := hA hz
      obtain ⟨i1, i2, i3, i4⟩ := ih hrest ⟨r.h, r.mem⟩ c hs1 hs2 (by rw [hcur, hcu]) hc0 hcn
      have e1 : (min (q.2 + (rest.map Prod.snd).sum) (n - c)).toNat = 0 := by omega
      have e2 : (min (rest.map Prod.snd).sum (n - c)).toNat = 0 := by omega
      rw [hdel, hret, i1, i2, e1, e2]
      refine ⟨by simp [load_bytes], by omega, ?_, ?_, i4⟩
      · intro _ x hx
        rcases List.mem_cons.mp hx with hx | hx
        · exact hx
        · exact i3 hz x hx
      · intro y hy _
        exact i3 hz y hy
    · obtain ⟨hret, hcur⟩ := hB (by omega)
      have hk0 : 0 < min q.2 (n - c) := by omega
      obtain ⟨i1, i2, i3, i4⟩ := ih hrest ⟨r.h, r.mem⟩ (c + min q.2 (n - c)) hs1 hs2
        (by rw [hcur, hcu]; omega) (by omega) (by omega)
      have e1 : (min (q.2 + (rest.map Prod.snd).sum) (n - c)).toNat
          = (min q.2 (n - c)).toNat
            + (min (rest.map Prod.snd).sum (n - (c + min q.2 (n - c)))).toNat := by
        omega
      have e2 : a + (c + min q.2 (n - c)) = a + c + ((min q.2 (n - c)).toNat : Int) := by
        omega
      rw [hdel, hret, i1, i2, e1, load_bytes_append, e2]
      refine ⟨rfl, by omega, ?_, ?_, i4⟩
      · intro hz2
        omega
      · intro y _ h0
        omega

theorem drop_length_takeWhile (p : Char → Bool) (u : List Char) :
    u.drop (u.takeWhile p).length = u.dropWhile p := by
  induction u with
  | nil => rfl
  | cons c t ih =>
    by_cases hc : p c = true
    · rw [List.takeWhile_cons_of_pos hc, List.dropWhile_cons_of_pos hc, List.length_cons,
        List.drop_succ_cons, ih]
    · rw [List.takeWhile_cons_of_neg hc, List.dropWhile_cons_of_neg hc]
      rfl

/-- When the digits read by `strtol` do not make up the whole rest of the text,
either nothing is consumed or something is left behind the number. -/
theorem strtol_digits_partial (neg : Bool) (pre u : List Char)
    (hu : (!u.isEmpty && u.all Char.isDigit) = false) :
    (strtol_digits neg pre.length u).2 = 0 ∨
    (pre ++ u).drop (strtol_digits neg pre.length u).2 ≠ [] := by
  unfold strtol_digits
  by_cases hl : (u.takeWhile Char.isDigit).length = 0
  · left
    rw [if_pos hl]
  · right
    rw [if_neg hl]
    simp only
    rw [List.drop_append, drop_length_takeWhile]
    intro hnil
    have hall : ∀ x ∈ u, Char.isDigit x = true := List.dropWhile_eq_nil_iff.mp hnil
    have hne : u ≠ [] := by
      rintro rfl
      exact hl rfl
    have h1 : u.all Char.isDigit = true := List.all_eq_true.mpr hall
    have h2 : u.isEmpty = false := by
      cases u with
      | nil => exact absurd rfl hne
      | cons _ _ => rfl
    rw [h1, h2] at hu
    exact absurd hu (by decide)

/-- A text that is not an integer in full makes `strtol` either consume nothing
or stop before the end. -/
theorem strtol_partial (s : List Char) (hs : is_integer_text s = false) :
    (strtol s).2 = 0 ∨ s.drop (strtol s).2 ≠ [] := by
  have hsplit := List.takeWhile_append_dropWhile isspace s
  unfold is_integer_text at hs
  unfold strtol
  cases hd : s.dropWhile isspace with
  | nil =>
    left
    rfl
  | cons c t =>
    rw [hd] at hs hsplit
    simp only at hs ⊢
    by_cases h1 : c = '-'
    · rw [if_pos h1]
      rw [if_pos (Or.inl h1)] at hs
      have e : s = (s.takeWhile isspace ++ [c]) ++ t := by
        rw [List.append_assoc]
        exact hsplit.symm
      have hlen : (s.takeWhile isspace ++ [c]).length = (s.takeWhile isspace).length + 1 := by
        simp
      have := strtol_digits_partial true (s.takeWhile isspace ++ [c]) t hs
      rw [hlen, ← e] at this
      exact this
    · rw [if_neg h1]
      by_cases h2 : c = '+'
      · rw [if_pos h2]
        rw [if_pos (Or.inr h2)] at hs
        have e : s = (s.takeWhile isspace ++ [c]) ++ t := by
          rw [List.append_assoc]
          exact hsplit.symm
        have hlen : (s.takeWhile isspace ++ [c]).length = (s.takeWhile isspace).length + 1 := by
          simp
        have := strtol_digits_partial false (s.takeWhile isspace ++ [c]) t hs
        rw [hlen, ← e] at this
        exact this
      · rw [if_neg h2]
        rw [if_neg (by rintro (h | h); exact h1 h; exact h2 h)] at hs
        have hs2 : (!(c :: t).isEmpty && (c :: t).all Char.isDigit) = false := by
          rw [show (c :: t).isEmpty = false from rfl]
          simpa using hs
        have := strtol_digits_partial false (s.takeWhile isspace) (c :: t) hs2
        rw [hsplit] at this
        exact this

theorem takeWhile_digits (ds : List Char) (hall : ∀ c ∈ ds, c.isDigit = true) :
    ds.takeWhile Char.isDigit = ds :=
  List.takeWhile_eq_self_iff.mpr hall

/-- `strtol` on the text of a base-10 integer converts all of it. -/
theorem strtol_numeral (neg : Bool) (ds : List Char) (hd : IsDigits ds) :
    strtol (numeral neg ds)
      = (clamp_long (numeral_value neg ds), (numeral neg ds).length) := by
  obtain ⟨hne, hall⟩ := hd
  have hv : atoi_digits 0 ds = decimal_value ds := by
    rw [atoi_digits_eq ds hall 0]
    simp
  have hlen : ds.length ≠ 0 := by
    intro h0
    exact hne (List.length_eq_zero.mp h0)
  cases neg with
  | true =>
    have hs : isspace '-' = false := by decide
    simp only [numeral, numeral_value, if_true, strtol]
    rw [List.dropWhile_cons_of_neg (by simp [hs]), List.takeWhile_cons_of_neg (by simp [hs])]
    simp only [if_true, strtol_digits, takeWhile_digits ds hall, if_neg hlen, hv,
      List.length_nil, List.length_cons, Nat.zero_add]
    rw [Nat.add_comm]
  | false =>
    cases ds with
    | nil => exact absurd rfl hne
    | cons c t =>
      obtain ⟨h1, h2, h3, -⟩ := isDigit_not_special c (hall c (List.mem_cons_self _ _))
      simp only [numeral, numeral_value, Bool.false_eq_true, if_false, strtol]
      rw [List.dropWhile_cons_of_neg (by simp [h1]), List.takeWhile_cons_of_neg (by simp [h1])]
      simp only [if_neg h2, if_neg h3, strtol_digits, takeWhile_digits (c :: t) hall,
        if_neg hlen, hv, List.length_nil, Nat.zero_add, Bool.false_eq_true, if_false]

theorem clamp_long_eq_self {x : Int} (hx : IsInt32 x) : clamp_long x = x := by
  unfold IsInt32 at hx
  unfold clamp_long
  split_ifs <;> omega

/-- The descriptor chosen by `pipe_open` when the payload is not an integer in
full. -/
theorem pipe_open_default {σ : Type} (k : Platform) (sys : Sys σ) (h : URLContext Int)
    (payload : List Char) (flags : Int) (os : σ) (hp : is_integer_text payload = false) :
    (pipe_open k sys h (pipe_scheme ++ payload) flags os).h
      = { priv_data := if Int.land flags k.URL_WRONLY ≠ 0 then 1 else 0, is_streamed := 1 } ∧
    (pipe_open k sys h (pipe_scheme ++ payload) flags os).ret = 0 := by
  have hc := strtol_partial payload hp
  unfold pipe_open
  simp only [strip_scheme_append]
  rw [if_pos hc]
  refine ⟨?_, ?_⟩ <;> first | rfl | trivial

/-- The descriptor chosen by `pipe_open` when the payload is a numeral. -/
theorem pipe_open_numeral {σ : Type} (k : Platform) (sys : Sys σ) (h : URLContext Int)
    (neg : Bool) (ds : List Char) (flags : Int) (os : σ) (hd : IsDigits ds)
    (hr : IsInt32 (numeral_value neg ds)) :
    (pipe_open k sys h (pipe_scheme ++ numeral neg ds) flags os).h
      = { priv_data := numeral_value neg ds, is_streamed := 1 } ∧
    (pipe_open k sys h (pipe_scheme ++ numeral neg ds) flags os).ret = 0 := by
  have hne := numeral_ne_nil neg ds hd
  have hc : ¬ ((numeral neg ds).length = 0 ∨
      (numeral neg ds).drop (numeral neg ds).length ≠ []) := by
    rintro (h0 | h1)
    · exact hne (List.length_eq_zero.mp h0)
    · exact h1 (List.drop_length _)
  unfold pipe_open
  simp only [strip_scheme_append, strtol_numeral neg ds hd]
  rw [if_neg hc, clamp_long_eq_self hr, wrapInt32_eq_self hr]
  refine ⟨?_, ?_⟩ <;> first | rfl | trivial

theorem store_bytes_frame (l : List Byte) (mem : Int → Byte) (b a : Int)
    (ha : a < b ∨ b + l.length ≤ a) : store_bytes mem b l a = mem a := by
  induction l generalizing mem b with
  | nil => rfl
  | cons x t ih =>
    rw [store_bytes, ih]
    · have hne : a ≠ b := by
        simp only [List.length_cons] at ha
        push_cast at ha
        omega
      simp [Function.update, hne]
    · simp only [List.length_cons] at ha
      push_cast at ha
      omega

theorem store_bytes_get (l : List Byte) (mem : Int → Byte) (b : Int) (i : Nat)
    (hi : i < l.length) : store_bytes mem b l (b + i) = l.get ⟨i, hi⟩ := by
  induction l generalizing mem b i with
  | nil => exact absurd hi (Nat.not_lt_zero _)
  | cons x t ih =>
    rw [store_bytes]
    cases i with
    | zero =>
      rw [store_bytes_frame]
      · simp [Function.update]
      · left
        simp
    | succ j =>
      have hj : j < t.length := by
        simp only [List.length_cons] at hi
        omega
      have e : b + ((j + 1 : Nat) : Int) = b + 1 + (j : Int) := by
        push_cast
        omega
      rw [e, ih (Function.update mem b x) (b + 1) j hj]
      rfl

theorem load_bytes_get (f : Int → Byte) (a : Int) (n i : Nat)
    (hi : i < (load_bytes f a n).length) : (load_bytes f a n).get ⟨i, hi⟩ = f (a + i) := by
  simp [load_bytes]

/-- In the model, `open` with `O_CREAT|O_TRUNC|O_RDWR` (578) that does not fail
creates or empties the file and returns a fresh description at offset 0, open
for reading and for writing. -/
theorem linux_open_read_write (p : List Char) (os : OS)
    (hok : ¬ (linux_open p 578 438 os).1 < 0) :
    os.next_fd < 2147483647 ∧
    linux_open p 578 438 os
      = ((os.next_fd : Int),
         { disk := Function.update os.disk p (some []),
           locked := os.locked,
           fds := Function.update os.fds (os.next_fd : Int)
             (some { path := p, pos := 0, can_read := true, can_write := true }),
           next_fd := os.next_fd + 1 }) := by
  have c1 : Int.land 578 3 = 2 := by decide
  have c2 : Int.land 578 512 = 512 := by decide
  have c3 : Int.land 578 64 = 64 := by decide
  unfold linux_open at hok ⊢
  rw [c1, c2, c3] at hok ⊢
  by_cases h1 : os.locked p = true
  · rw [if_pos h1] at hok
    exact absurd (show (-1 : Int) < 0 by decide) hok
  · rw [if_neg h1] at hok ⊢
    rw [if_neg (by rintro ⟨-, hx⟩; exact absurd hx (by decide)),
      if_neg (by decide)] at hok ⊢
    by_cases h4 : 2147483647 ≤ os.next_fd
    · rw [if_pos h4] at hok
      exact absurd (show (-1 : Int) < 0 by decide) hok
    · rw [if_neg h4]
      refine ⟨by omega, ?_⟩
      simp

/-- In the model, on a fresh description of an empty file open for reading and
writing, `write` of `N` bytes, `lseek` to the start and `read` of `N` bytes
give the bytes back. -/
theorem linux_round_trip (os : OS) (fd : Int) (p : List Char) (mem mem2 : Int → Byte)
    (buf buf2 N : Int) (hN0 : 0 ≤ N)
    (hf : os.fds fd = some { path := p, pos := 0, can_read := true, can_write := true })
    (hd : os.disk p = some []) :
    (linux_write fd mem buf N os).1 = N ∧
    (linux_lseek fd 0 0 (linux_write fd mem buf N os).2).1 = 0 ∧
    (linux_read fd mem2 buf2 N (linux_lseek fd 0 0 (linux_write fd mem buf N os).2).2).1 = N ∧
    (∀ i : Nat, (i : Int) < N →
      (linux_read fd mem2 buf2 N
        (linux_lseek fd 0 0 (linux_write fd mem buf N os).2).2).2.1 (buf2 + i)
        = mem (buf + i)) := by
  have hlen : (load_bytes mem buf N.toNat).length = N.toNat := load_bytes_length _ _ _
  have hwrite : linux_write fd mem buf N os
      = (N, { os with
              disk := Function.update os.disk p (some (load_bytes mem buf N.toNat)),
              fds := Function.update os.fds fd
                (some { path := p, pos := N.toNat, can_read := true, can_write := true }) }) := by
    simp [linux_write, hf, hd, hlen]
  have hseek : linux_lseek fd 0 0 (linux_write fd mem buf N os).2
      = (0, { os with
              disk := Function.update os.disk p (some (load_bytes mem buf N.toNat)),
              fds := Function.update os.fds fd
                (some { path := p, pos := 0, can_read := true, can_write := true }) }) := by
    rw [hwrite]
    simp [linux_lseek]
  have hread : linux_read fd mem2 buf2 N (linux_lseek fd 0 0 (linux_write fd mem buf N os).2).2
      = (N, store_bytes mem2 buf2 (load_bytes mem buf N.toNat),
          { os with
              disk := Function.update os.disk p (some (load_bytes mem buf N.toNat)),
              fds := Function.update os.fds fd
                (some { path := p, pos := N.toNat, can_read := true, can_write := true }) }) := by
    have htake : List.take N.toNat (load_bytes mem buf N.toNat)
        = load_bytes mem buf N.toNat :=
      List.take_of_length_le (by rw [hlen])
    rw [hseek]
    simp [linux_read, hlen, hN0, htake]
  rw [hread, hseek, hwrite]
  refine ⟨rfl, rfl, rfl, ?_⟩
  intro i hi
  have hi2 : i < (load_bytes mem buf N.toNat).length := by
    rw [hlen]
    omega
  simp only
  rw [store_bytes_get _ _ _ i hi2, load_bytes_get]

/-! ## `memory_read` -/

/-- C1, as stated, fails for a negative request: on the handle (start 0,
current 0, size 10) ten bytes are readable, a request of -5 bytes returns -5 and
leaves `curr` where it was, so `curr` has not moved by `min(requested, readable)`
and the returned value is not the number of bytes copied. -/
theorem memory_read_negative_request :
    0 < readable ⟨0, 0, 10⟩ ∧
    (memory_read sample_region ⟨⟨0, 0, 10⟩, 0⟩ zero_mem 100 (-5)).ret = -5 ∧
    (memory_read sample_region ⟨⟨0, 0, 10⟩, 0⟩ zero_mem 100 (-5)).h.priv_data.curr = 0 ∧
    ¬ (memory_read sample_region ⟨⟨0, 0, 10⟩, 0⟩ zero_mem 100 (-5)).h.priv_data.curr
        = 0 + min (-5) (readable ⟨0, 0, 10⟩) := by
  decide

/-- C1, amended: when `readable > 0`, `memory_read` returns
`min(requested, readable)`; it copies `max(min(requested, readable), 0)` bytes:
the bytes at `mem[buf + i]` are the region bytes at `curr + i` for every `i`
below `min(requested, readable)`, the caller's memory outside that range is
untouched, `curr` advances by `max(min(requested, readable), 0)`, and `start`,
`size`, `is_streamed` and the region are unchanged. -/
theorem memory_read_copy (region : Int → Byte) (h : URLContext MemoryStreamDefinition)
    (mem : Int → Byte) (buf size : Int) (hr : 0 < readable h.priv_data) :
    (memory_read region h mem buf size).ret = min size (readable h.priv_data) ∧
    (memory_read region h mem buf size).h.priv_data.curr
      = h.priv_data.curr + max (min size (readable h.priv_data)) 0 ∧
    (∀ i : Nat, (i : Int) < min size (readable h.priv_data) →
      (memory_read region h mem buf size).mem (buf + i) = region (h.priv_data.curr + i)) ∧
    (∀ a : Int, a < buf ∨ buf + max (min size (readable h.priv_data)) 0 ≤ a →
      (memory_read region h mem buf size).mem a = mem a) ∧
    (memory_read region h mem buf size).h.priv_data.start = h.priv_data.start ∧
    (memory_read region h mem buf size).h.priv_data.size = h.priv_data.size ∧
    (memory_read region h mem buf size).h.is_streamed = h.is_streamed ∧
    (memory_read region h mem buf size).region = region := by
  rw [memory_read_of_readable region h mem buf size hr]
  refine ⟨rfl, rfl, ?_, ?_, rfl, rfl, rfl, rfl⟩
  · intro i hi
    exact copy_loop_copied region _ _ _ _ i (by omega)
  · intro a ha
    exact copy_loop_frame region _ _ _ _ a (by omega)

/-- C1, amended, at a concrete input: on (start 0, current 0, size 10) a request
of 4 bytes returns 4, moves `curr` to 4 and stores the region byte of address 3
at `buf + 3`. -/
theorem memory_read_copy_witness :
    0 < readable ⟨0, 0, 10⟩ ∧
    (memory_read sample_region ⟨⟨0, 0, 10⟩, 0⟩ zero_mem 100 4).ret
      = min 4 (readable ⟨0, 0, 10⟩) ∧
    (memory_read sample_region ⟨⟨0, 0, 10⟩, 0⟩ zero_mem 100 4).h.priv_data.curr
      = 0 + max (min 4 (readable ⟨0, 0, 10⟩)) 0 ∧
    (memory_read sample_region ⟨⟨0, 0, 10⟩, 0⟩ zero_mem 100 4).mem (100 + (3 : Nat))
      = sample_region (0 + (3 : Nat)) :=
  have t := memory_read_copy sample_region ⟨⟨0, 0, 10⟩, 0⟩ zero_mem 100 4 (by decide)
  ⟨by decide, t.1, t.2.1, t.2.2.1 3 (by decide)⟩

/-- C2: when `readable <= 0`, `memory_read` returns 0, stores nothing in the
caller's memory and leaves the handle and the region as they were, whatever the
requested size. -/
theorem memory_read_end_of_data (region : Int → Byte) (h : URLContext MemoryStreamDefinition)
    (mem : Int → Byte) (buf size : Int) (hr : readable h.priv_data ≤ 0) :
    (memory_read region h mem buf size).ret = 0 ∧
    (memory_read region h mem buf size).mem = mem ∧
    (memory_read region h mem buf size).h = h ∧
    (memory_read region h mem buf size).region = region := by
  rw [memory_read_of_not_readable region h mem buf size hr]
  exact ⟨rfl, rfl, rfl, rfl⟩

/-- C2 at a concrete input: on (start 0, current 10, size 10) nothing is
readable and a request of 5 bytes returns 0 and changes nothing. -/
theorem memory_read_end_of_data_witness :
    readable ⟨0, 10, 10⟩ ≤ 0 ∧
    (memory_read sample_region ⟨⟨0, 10, 10⟩, 0⟩ zero_mem 100 5).ret = 0 ∧
    (memory_read sample_region ⟨⟨0, 10, 10⟩, 0⟩ zero_mem 100 5).mem = zero_mem ∧
    (memory_read sample_region ⟨⟨0, 10, 10⟩, 0⟩ zero_mem 100 5).h = ⟨⟨0, 10, 10⟩, 0⟩ ∧
    (memory_read sample_region ⟨⟨0, 10, 10⟩, 0⟩ zero_mem 100 5).region = sample_region :=
  ⟨by decide,
   memory_read_end_of_data sample_region ⟨⟨0, 10, 10⟩, 0⟩ zero_mem 100 5 (by decide)⟩

/-! ## `memory_seek` and `memory_write` -/

/-- C4: `memory_seek` does not look at `whence`: two calls that differ only in
`whence` return the same value and the same handle, in which
`curr = start + pos` while `start`, `size` and `is_streamed` are unchanged; no
bound is checked and there is no failing path. -/
theorem memory_seek_ignores_whence (h : URLContext MemoryStreamDefinition)
    (pos w1 w2 : Int) :
    memory_seek h pos w1 = memory_seek h pos w2 ∧
    (memory_seek h pos w1).2.priv_data.curr = h.priv_data.start + pos ∧
    (memory_seek h pos w1).2.priv_data.start = h.priv_data.start ∧
    (memory_seek h pos w1).2.priv_data.size = h.priv_data.size ∧
    (memory_seek h pos w1).2.is_streamed = h.is_streamed :=
  ⟨rfl, rfl, rfl, rfl, rfl⟩

/-- C5, as stated, fails: on a handle with start 0 the offset 2^31 stores the
cursor 2147483648 and returns -2147483648. -/
theorem memory_seek_return_truncated :
    (memory_seek ⟨⟨0, 0, 10⟩, 0⟩ 2147483648 0).2.priv_data.curr = 0 + 2147483648 ∧
    (memory_seek ⟨⟨0, 0, 10⟩, 0⟩ 2147483648 0).1 = -2147483648 ∧
    ¬ (memory_seek ⟨⟨0, 0, 10⟩, 0⟩ 2147483648 0).1
        = (memory_seek ⟨⟨0, 0, 10⟩, 0⟩ 2147483648 0).2.priv_data.curr := by
  decide

/-- C5, amended: the value returned by `memory_seek` is the stored cursor
`start + pos` converted to `int`; it is the stored cursor itself exactly when
`start + pos` is a value of `int`. -/
theorem memory_seek_return (h : URLContext MemoryStreamDefinition) (pos whence : Int) :
    (memory_seek h pos whence).2.priv_data.curr = h.priv_data.start + pos ∧
    (memory_seek h pos whence).1 = wrapInt32 (h.priv_data.start + pos) ∧
    ((memory_seek h pos whence).1 = (memory_seek h pos whence).2.priv_data.curr
      ↔ IsInt32 (h.priv_data.start + pos)) :=
  ⟨rfl, rfl, wrapInt32_eq_self_iff _⟩

/-- C6: `memory_write` returns -1, a negative value that depends on none of its
arguments, and leaves the handle, the backing region and the caller's memory
(the buffer included) as they were. -/
theorem memory_write_fails (region : Int → Byte) (h : URLContext MemoryStreamDefinition)
    (mem : Int → Byte) (buf size : Int) :
    (memory_write region h mem buf size).ret = -1 ∧
    (memory_write region h mem buf size).ret < 0 ∧
    (memory_write region h mem buf size).h = h ∧
    (memory_write region h mem buf size).region = region ∧
    (memory_write region h mem buf size).mem = mem :=
  ⟨rfl, show (-1 : Int) < 0 by decide, rfl, rfl, rfl⟩

/-! ## Sequences of calls -/

/-- C3, as stated, fails: after `open("memory:0|10")`, a seek to offset 20 and a
read of 5 bytes, the cursor is 20 while `start + size` is 10; and after
`open("memory:0|-5")` and a read of 5 bytes the cursor is 0 while `start + size`
is -5. -/
theorem cursor_out_of_bounds_after_read :
    memory_open fresh_context ("memory:0|10").toList 0 = some (0, ⟨⟨0, 0, 10⟩, 0⟩) ∧
    (memory_read sample_region (memory_seek ⟨⟨0, 0, 10⟩, 0⟩ 20 0).2 zero_mem 100 5).h.priv_data.curr
      = 20 ∧
    ¬ CursorInBounds
        (memory_read sample_region (memory_seek ⟨⟨0, 0, 10⟩, 0⟩ 20 0).2 zero_mem 100 5).h.priv_data ∧
    memory_open fresh_context ("memory:0|-5").toList 0 = some (0, ⟨⟨0, 0, -5⟩, 0⟩) ∧
    ¬ CursorInBounds (memory_read sample_region ⟨⟨0, 0, -5⟩, 0⟩ zero_mem 100 5).h.priv_data := by
  decide

/-- C3, amended: on a handle opened with a size `n >= 0`, after any calls of
which every seek has its offset within `0 .. n`, a `memory_read` of any
requested size leaves `start <= curr <= start + size`. -/
theorem cursor_in_bounds_after_read {α : Type} (h0 : URLContext α) (name : List Char)
    (flags r : Int) (h : URLContext MemoryStreamDefinition) (region mem : Int → Byte)
    (ops : List MemoryOp) (buf size : Int)
    (ho : memory_open h0 name flags = some (r, h)) (hn : 0 ≤ h.priv_data.size)
    (hs : ∀ op ∈ ops, op.seek_within h.priv_data.size = true) :
    CursorInBounds
      (memory_read region (run_ops region ⟨h, mem⟩ ops).h (run_ops region ⟨h, mem⟩ ops).mem
        buf size).h.priv_data := by
  have hopen := memory_open_some h0 name flags r h ho
  have hb : CursorInBounds h.priv_data := by
    unfold CursorInBounds
    omega
  exact (memory_read_keeps_bounds region _ _ buf size
    (run_ops_keeps_bounds region ops ⟨h, mem⟩ hb hs)).1

/-- C3, amended, at a concrete input: `open("memory:0|10")`, a read of 4, a seek
to 3, a write, then a read of 15 bytes. -/
theorem cursor_in_bounds_after_read_witness :
    memory_open fresh_context ("memory:0|10").toList 0 = some (0, ⟨⟨0, 0, 10⟩, 0⟩) ∧
    CursorInBounds
      (memory_read sample_region
        (run_ops sample_region ⟨⟨⟨0, 0, 10⟩, 0⟩, zero_mem⟩
          [.read 100 4, .seek 3 0, .write 100 2]).h
        (run_ops sample_region ⟨⟨⟨0, 0, 10⟩, 0⟩, zero_mem⟩
          [.read 100 4, .seek 3 0, .write 100 2]).mem
        100 15).h.priv_data :=
  ⟨by decide,
   cursor_in_bounds_after_read fresh_context ("memory:0|10").toList 0 0 ⟨⟨0, 0, 10⟩, 0⟩
     sample_region zero_mem [.read 100 4, .seek 3 0, .write 100 2] 100 15
     (by decide) (by decide) (by decide)⟩

/-- C7: on a handle just opened with origin `a` and size `n >= 0`, a read of
`m >= n` bytes returns `n` and stores the region bytes of `a .. a + n - 1` at
`buf ..`, and the read that follows returns 0 whatever its buffer and size. -/
theorem over_long_read_then_end {α : Type} (h0 : URLContext α) (name : List Char)
    (flags r : Int) (h : URLContext MemoryStreamDefinition) (region mem : Int → Byte)
    (buf m : Int) (ho : memory_open h0 name flags = some (r, h))
    (hn : 0 ≤ h.priv_data.size) (hm : h.priv_data.size ≤ m) :
    (memory_read region h mem buf m).ret = h.priv_data.size ∧
    (∀ i : Nat, (i : Int) < h.priv_data.size →
      (memory_read region h mem buf m).mem (buf + i) = region (h.priv_data.start + i)) ∧
    (∀ buf2 m2 : Int,
      (memory_read region (memory_read region h mem buf m).h (memory_read region h mem buf m).mem
        buf2 m2).ret = 0) := by
  obtain ⟨-, hc, -, hsz, -⟩ := memory_open_some h0 name flags r h ho
  have hrd : readable h.priv_data = h.priv_data.size := by
    unfold readable
    rw [hc]
    simp only [sub_self, sub_zero]
    exact wrapInt32_eq_self hsz
  by_cases hz : h.priv_data.size ≤ 0
  · have hr : readable h.priv_data ≤ 0 := by omega
    rw [memory_read_of_not_readable region h mem buf m hr]
    refine ⟨by simp only; omega, ?_, ?_⟩
    · intro i hi
      omega
    · intro buf2 m2
      rw [memory_read_of_not_readable region h mem buf2 m2 hr]
  · have hr : 0 < readable h.priv_data := by omega
    rw [memory_read_of_readable region h mem buf m hr]
    refine ⟨by simp only; omega, ?_, ?_⟩
    · intro i hi
      simp only
      rw [copy_loop_copied region _ _ _ _ i (by omega), hc]
    · intro buf2 m2
      simp only
      rw [memory_read_of_not_readable]
      unfold readable at hrd ⊢
      simp only
      rw [hrd]
      have e : h.priv_data.size
          - (h.priv_data.curr + max (min m h.priv_data.size) 0 - h.priv_data.start) = 0 := by
        omega
      rw [e]
      decide

/-- C7 at the input of the spec: `open("memory:0|10")`, a read of 15 bytes
returns 10 and the next read (here of 15 bytes again) returns 0. -/
theorem over_long_read_then_end_witness :
    memory_open fresh_context ("memory:0|10").toList 0 = some (0, ⟨⟨0, 0, 10⟩, 0⟩) ∧
    (memory_read sample_region ⟨⟨0, 0, 10⟩, 0⟩ zero_mem 100 15).ret = 10 ∧
    (memory_read sample_region
      (memory_read sample_region ⟨⟨0, 0, 10⟩, 0⟩ zero_mem 100 15).h
      (memory_read sample_region ⟨⟨0, 0, 10⟩, 0⟩ zero_mem 100 15).mem 100 15).ret = 0 :=
  have t := over_long_read_then_end fresh_context ("memory:0|10").toList 0 0 ⟨⟨0, 0, 10⟩, 0⟩
    sample_region zero_mem 100 15 (by decide) (by decide) (by decide)
  ⟨by decide, t.1, t.2.2 100 15⟩

/-- C8: on a handle opened with origin `a` and size `n`, after any calls
whatever, a seek to `k` with `0 <= k <= n` followed by a read of `m >= 0` bytes
returns `min(m, n - k)` and stores the region bytes of addresses `a + k + i`,
`i < min(m, n - k)`, at `buf + i`. -/
theorem seek_then_read {α : Type} (h0 : URLContext α) (name : List Char)
    (flags r : Int) (h : URLContext MemoryStreamDefinition) (region mem : Int → Byte)
    (ops : List MemoryOp) (k whence buf m : Int)
    (ho : memory_open h0 name flags = some (r, h))
    (hk0 : 0 ≤ k) (hkn : k ≤ h.priv_data.size) (hm : 0 ≤ m) :
    (memory_read region (memory_seek (run_ops region ⟨h, mem⟩ ops).h k whence).2
      (run_ops region ⟨h, mem⟩ ops).mem buf m).ret = min m (h.priv_data.size - k) ∧
    (∀ i : Nat, (i : Int) < min m (h.priv_data.size - k) →
      (memory_read region (memory_seek (run_ops region ⟨h, mem⟩ ops).h k whence).2
        (run_ops region ⟨h, mem⟩ ops).mem buf m).mem (buf + i)
        = region (h.priv_data.start + k + i)) := by
  obtain ⟨-, -, -, hsz, -⟩ := memory_open_some h0 name flags r h ho
  obtain ⟨hst, hsi, -⟩ := run_ops_start_size region ops ⟨h, mem⟩
  simp only at hst hsi
  generalize run_ops region ⟨h, mem⟩ ops = s at hst hsi ⊢
  have hcur : (memory_seek s.h k whence).2.priv_data.curr = h.priv_data.start + k := by
    simp only [memory_seek, hst]
  have hrd : readable (memory_seek s.h k whence).2.priv_data = h.priv_data.size - k := by
    unfold readable
    simp only [memory_seek, hst, hsi]
    have e : h.priv_data.size - (h.priv_data.start + k - h.priv_data.start)
        = h.priv_data.size - k := by omega
    rw [e]
    apply wrapInt32_eq_self
    unfold IsInt32 at hsz ⊢
    omega
  by_cases hz : h.priv_data.size - k ≤ 0
  · rw [memory_read_of_not_readable region _ _ buf m (by omega)]
    refine ⟨by simp only; omega, ?_⟩
    intro i hi
    omega
  · rw [memory_read_of_readable region _ _ buf m (by omega)]
    refine ⟨by simp only; omega, ?_⟩
    intro i hi
    simp only
    rw [copy_loop_copied region _ _ _ _ i (by omega), hcur]

/-- C8 at the input of the spec: `open("memory:0|10")`, some earlier calls, a
seek to offset 3, then a read of 4 bytes: it returns 4 and the first byte
stored is the region byte of address 3. -/
theorem seek_then_read_witness :
    memory_open fresh_context ("memory:0|10").toList 0 = some (0, ⟨⟨0, 0, 10⟩, 0⟩) ∧
    (memory_read sample_region
      (memory_seek (run_ops sample_region ⟨⟨⟨0, 0, 10⟩, 0⟩, zero_mem⟩
        [.read 100 7, .seek 50 1]).h 3 0).2
      (run_ops sample_region ⟨⟨⟨0, 0, 10⟩, 0⟩, zero_mem⟩ [.read 100 7, .seek 50 1]).mem
      200 4).ret = min 4 (10 - 3) ∧
    (memory_read sample_region
      (memory_seek (run_ops sample_region ⟨⟨⟨0, 0, 10⟩, 0⟩, zero_mem⟩
        [.read 100 7, .seek 50 1]).h 3 0).2
      (run_ops sample_region ⟨⟨⟨0, 0, 10⟩, 0⟩, zero_mem⟩ [.read 100 7, .seek 50 1]).mem
      200 4).mem (200 + (0 : Nat)) = sample_region (0 + 3 + (0 : Nat)) :=
  have t := seek_then_read fresh_context ("memory:0|10").toList 0 0 ⟨⟨0, 0, 10⟩, 0⟩
    sample_region zero_mem [.read 100 7, .seek 50 1] 3 0 200 4
    (by decide) (by decide) (by decide) (by decide)
  ⟨by decide, t.1, t.2 0 (by decide)⟩

/-! ## `memory_open` -/

/-- C9: for an address `memory:<a>|<s>` whose payload is the text of two base-10
integers `a` and `s`, both values of `int`, and for every `flags`, `memory_open`
returns 0 and leaves a handle with `start = a`, `curr = a` and `size = s`
(`is_streamed` is the one of the context passed in). -/
theorem memory_open_parses {α : Type} (h0 : URLContext α) (flags : Int)
    (na ns : Bool) (da ds : List Char) (hda : IsDigits da) (hds : IsDigits ds)
    (hra : IsInt32 (numeral_value na da)) (hrs : IsInt32 (numeral_value ns ds)) :
    memory_open h0 (memory_scheme ++ numeral na da ++ '|' :: numeral ns ds) flags
      = some (0, { priv_data :=
                     { start := numeral_value na da,
                       curr := numeral_value na da,
                       size := numeral_value ns ds },
                   is_streamed := h0.is_streamed }) := by
  unfold memory_open
  simp only
  rw [List.append_assoc, strip_scheme_append,
    strtok_token (numeral na da) (numeral ns ds) ['|'] '|' (numeral_ne_nil na da hda)
      (numeral_no_bar na da hda) (by decide),
    strtok_last (numeral ns ds) ['|'] (numeral_ne_nil ns ds hds) (numeral_no_bar ns ds hds)]
  simp only [atoi, atoi_str_numeral na da hda, atoi_str_numeral ns ds hds,
    wrapInt32_eq_self hra, wrapInt32_eq_self hrs]

/-- C9 at the input of the spec: `"memory:0|10"` is the address built from the
numerals `0` and `10`, and opening it with `flags = 2` gives start 0, current 0
and size 10. -/
theorem memory_open_parses_witness :
    memory_scheme ++ numeral false ['0'] ++ '|' :: numeral false ['1', '0']
      = ("memory:0|10").toList ∧
    numeral_value false ['0'] = 0 ∧ numeral_value false ['1', '0'] = 10 ∧
    memory_open fresh_context
        (memory_scheme ++ numeral false ['0'] ++ '|' :: numeral false ['1', '0']) 2
      = some (0, { priv_data :=
                     { start := numeral_value false ['0'],
                       curr := numeral_value false ['0'],
                       size := numeral_value false ['1', '0'] },
                   is_streamed := fresh_context.is_streamed }) :=
  ⟨by decide, by decide, by decide,
   memory_open_parses fresh_context 2 false false ['0'] ['1', '0']
     (by decide) (by decide) (by decide) (by decide)⟩

/-- C10: the code does not validate the payload.  For `"memory:"`, `"memory:5"`
and `"memory:5|"` a `strtok` result is null and goes to `atoi`, so the call has
undefined behaviour: `memory_open` returns neither an error value nor a
handle. -/
theorem memory_open_missing_token :
    memory_open fresh_context ("memory:").toList 0 = none ∧
    memory_open fresh_context ("memory:5").toList 0 = none ∧
    memory_open fresh_context ("memory:5|").toList 0 = none := by
  decide

/-! ## Further properties of the memory protocol -/

/-- C18: on a handle with `size >= 0` whose cursor satisfies
`start <= curr <= start + size`, a `memory_read` of any requested size (zero and
negative ones included) leaves the cursor within the same bounds, leaves `start`
and `size` unchanged and does not move `curr` backwards. -/
theorem memory_read_preserves_bounds (region : Int → Byte)
    (h : URLContext MemoryStreamDefinition) (mem : Int → Byte) (buf size : Int)
    (_hn : 0 ≤ h.priv_data.size) (hb : CursorInBounds h.priv_data) :
    CursorInBounds (memory_read region h mem buf size).h.priv_data ∧
    (memory_read region h mem buf size).h.priv_data.start = h.priv_data.start ∧
    (memory_read region h mem buf size).h.priv_data.size = h.priv_data.size ∧
    h.priv_data.curr ≤ (memory_read region h mem buf size).h.priv_data.curr :=
  have hk := memory_read_keeps_bounds region h mem buf size hb
  have hs := memory_read_start_size region h mem buf size
  ⟨hk.1, hs.1, hs.2.1, hk.2⟩

/-- C18 at concrete inputs: on (start 0, current 4, size 10) a request of -3
bytes keeps the cursor within bounds and does not move it backwards. -/
theorem memory_read_preserves_bounds_witness :
    CursorInBounds (memory_read sample_region ⟨⟨0, 4, 10⟩, 0⟩ zero_mem 100 (-3)).h.priv_data ∧
    (memory_read sample_region ⟨⟨0, 4, 10⟩, 0⟩ zero_mem 100 (-3)).h.priv_data.start = 0 ∧
    (memory_read sample_region ⟨⟨0, 4, 10⟩, 0⟩ zero_mem 100 (-3)).h.priv_data.size = 10 ∧
    4 ≤ (memory_read sample_region ⟨⟨0, 4, 10⟩, 0⟩ zero_mem 100 (-3)).h.priv_data.curr :=
  memory_read_preserves_bounds sample_region ⟨⟨0, 4, 10⟩, 0⟩ zero_mem 100 (-3)
    (by decide) (by decide)

/-- C20: on a handle reached from a fresh `memory_open` by any calls of
`memory_read`, `memory_write` and `memory_seek`, `start` and `size` are those of
the opened handle; `memory_seek` to offset 0, with any `whence`, gives back the
opened handle itself; a read on the rewound handle returns the same count and
delivers the same bytes as that read on the freshly opened handle; and a seek
to `p` behind a seek to `q` returns the same value and leaves the same handle as
the seek to `p` alone. -/
theorem rewind_restores_opened_state {α : Type} (h0 : URLContext α) (name : List Char)
    (flags r : Int) (h : URLContext MemoryStreamDefinition) (region mem : Int → Byte)
    (ops : List MemoryOp) (ho : memory_open h0 name flags = some (r, h)) :
    (run_ops region ⟨h, mem⟩ ops).h.priv_data.start = h.priv_data.start ∧
    (run_ops region ⟨h, mem⟩ ops).h.priv_data.size = h.priv_data.size ∧
    (∀ whence : Int, (memory_seek (run_ops region ⟨h, mem⟩ ops).h 0 whence).2 = h) ∧
    (∀ whence buf size : Int,
      (memory_read region (memory_seek (run_ops region ⟨h, mem⟩ ops).h 0 whence).2
          (run_ops region ⟨h, mem⟩ ops).mem buf size).ret
        = (memory_read region h mem buf size).ret ∧
      ∀ i : Nat, (i : Int) < (memory_read region h mem buf size).ret →
        (memory_read region (memory_seek (run_ops region ⟨h, mem⟩ ops).h 0 whence).2
            (run_ops region ⟨h, mem⟩ ops).mem buf size).mem (buf + i)
          = (memory_read region h mem buf size).mem (buf + i)) ∧
    (∀ p q w1 w2 : Int,
      memory_seek (memory_seek (run_ops region ⟨h, mem⟩ ops).h q w1).2 p w2
        = memory_seek (run_ops region ⟨h, mem⟩ ops).h p w2) := by
  obtain ⟨-, hc, -, -, -⟩ := memory_open_some h0 name flags r h ho
  obtain ⟨hst, hsi, hstr⟩ := run_ops_start_size region ops ⟨h, mem⟩
  simp only at hst hsi hstr
  generalize run_ops region ⟨h, mem⟩ ops = s at hst hsi hstr ⊢
  have hrew : ∀ whence : Int, (memory_seek s.h 0 whence).2 = h := by
    intro whence
    obtain ⟨⟨hstart, hcurr, hsize⟩, hflag⟩ := h
    simp only at hc hst hsi hstr
    simp only [memory_seek, hst, hsi, hstr, add_zero, hc]
  refine ⟨hst, hsi, hrew, ?_, ?_⟩
  · intro whence buf size
    rw [hrew whence]
    refine ⟨(memory_read_ret_h region h s.mem mem buf buf size).1, ?_⟩
    intro i hi
    rw [memory_read_delivers region h mem buf size i hi,
      memory_read_delivers region h s.mem buf size i
        (by rw [(memory_read_ret_h region h s.mem mem buf buf size).1]; exact hi)]
  · intro p q w1 w2
    rfl

/-- C20 at a concrete input: after `open("memory:0|10")`, a read of 4, a seek to
7, a write and a read of 2, a seek to 0 gives back the opened handle, and a
read of 3 bytes then returns what it returns on the fresh handle. -/
theorem rewind_restores_opened_state_witness :
    memory_open fresh_context ("memory:0|10").toList 0 = some (0, ⟨⟨0, 0, 10⟩, 0⟩) ∧
    (memory_seek (run_ops sample_region ⟨⟨⟨0, 0, 10⟩, 0⟩, zero_mem⟩
      [.read 100 4, .seek 7 1, .write 100 2, .read 100 2]).h 0 2).2 = ⟨⟨0, 0, 10⟩, 0⟩ ∧
    (memory_read sample_region
      (memory_seek (run_ops sample_region ⟨⟨⟨0, 0, 10⟩, 0⟩, zero_mem⟩
        [.read 100 4, .seek 7 1, .write 100 2, .read 100 2]).h 0 2).2
      (run_ops sample_region ⟨⟨⟨0, 0, 10⟩, 0⟩, zero_mem⟩
        [.read 100 4, .seek 7 1, .write 100 2, .read 100 2]).mem 100 3).ret
      = (memory_read sample_region ⟨⟨0, 0, 10⟩, 0⟩ zero_mem 100 3).ret :=
  have t := rewind_restores_opened_state fresh_context ("memory:0|10").toList 0 0
    ⟨⟨0, 0, 10⟩, 0⟩ sample_region zero_mem
    [.read 100 4, .seek 7 1, .write 100 2, .read 100 2] (by decide)
  ⟨by decide, t.2.2.1 2, (t.2.2.2.1 2 100 3).1⟩

/-- C19: on a handle just opened with origin `a` and size `n >= 0`, for every
sequence of requests with positive sizes, the bytes delivered by the successive
`memory_read` calls, taken together, are the first bytes of the region
`a .. a + n - 1` in order, as many as the returned counts add up to; that sum
is `min(sum of the requests, n)`, so it never exceeds `n` and is `n` once the
requests add up to `n` or more; and behind a call that returned 0 every call
returns 0. -/
theorem chunked_reading {α : Type} (h0 : URLContext α) (name : List Char)
    (flags r : Int) (h : URLContext MemoryStreamDefinition) (region mem : Int → Byte)
    (reqs : List (Int × Int)) (ho : memory_open h0 name flags = some (r, h))
    (hn : 0 ≤ h.priv_data.size) (hpos : ∀ q ∈ reqs, 0 < q.2) :
    ((read_chunks region ⟨h, mem⟩ reqs).map Prod.snd).flatten
      = load_bytes region h.priv_data.start
          ((read_chunks region ⟨h, mem⟩ reqs).map Prod.fst).sum.toNat ∧
    ((read_chunks region ⟨h, mem⟩ reqs).map Prod.snd).flatten
      <+: load_bytes region h.priv_data.start h.priv_data.size.toNat ∧
    ((read_chunks region ⟨h, mem⟩ reqs).map Prod.fst).sum
      = min (reqs.map Prod.snd).sum h.priv_data.size ∧
    ((read_chunks region ⟨h, mem⟩ reqs).map Prod.fst).sum ≤ h.priv_data.size ∧
    (h.priv_data.size ≤ (reqs.map Prod.snd).sum →
      ((read_chunks region ⟨h, mem⟩ reqs).map Prod.fst).sum = h.priv_data.size) ∧
    List.Pairwise (fun x y => x = 0 → y = 0)
      ((read_chunks region ⟨h, mem⟩ reqs).map Prod.fst) := by
  obtain ⟨-, hc, -, hsz, -⟩ := memory_open_some h0 name flags r h ho
  obtain ⟨i1, i2, -, i4⟩ := read_chunks_from region h.priv_data.start h.priv_data.size hsz
    reqs hpos ⟨h, mem⟩ 0 rfl rfl (by simp only [hc]; omega) (le_refl 0) hn
  simp only [add_zero, sub_zero] at i1 i2
  have htot := sum_sizes_nonneg reqs hpos
  refine ⟨by rw [i1, i2], ?_, i2, by rw [i2]; omega, ?_, i4⟩
  · rw [i1]
    have e : h.priv_data.size.toNat
        = (min (reqs.map Prod.snd).sum h.priv_data.size).toNat
          + (h.priv_data.size.toNat - (min (reqs.map Prod.snd).sum h.priv_data.size).toNat) := by
      omega
    rw [e, load_bytes_append]
    exact List.prefix_append _ _
  · intro hle
    rw [i2]
    omega

/-- C19 at a concrete input: after `open("memory:0|10")` four requests of 4
bytes return 4, 4, 2 and 0, ten bytes in all. -/
theorem chunked_reading_witness :
    memory_open fresh_context ("memory:0|10").toList 0 = some (0, ⟨⟨0, 0, 10⟩, 0⟩) ∧
    (read_chunks sample_region ⟨⟨⟨0, 0, 10⟩, 0⟩, zero_mem⟩
      [(100, 4), (200, 4), (100, 4), (300, 4)]).map Prod.fst = [4, 4, 2, 0] ∧
    ((read_chunks sample_region ⟨⟨⟨0, 0, 10⟩, 0⟩, zero_mem⟩
      [(100, 4), (200, 4), (100, 4), (300, 4)]).map Prod.fst).sum
      = min ([(100, 4), (200, 4), (100, 4), (300, 4)].map Prod.snd).sum 10 ∧
    ((read_chunks sample_region ⟨⟨⟨0, 0, 10⟩, 0⟩, zero_mem⟩
      [(100, 4), (200, 4), (100, 4), (300, 4)]).map Prod.snd).flatten
      <+: load_bytes sample_region 0 (10 : Int).toNat :=
  have t := chunked_reading fresh_context ("memory:0|10").toList 0 0 ⟨⟨0, 0, 10⟩, 0⟩
    sample_region zero_mem [(100, 4), (200, 4), (100, 4), (300, 4)]
    (by decide) (by decide) (by decide)
  ⟨by decide, by decide, t.2.2.1, t.2.1⟩

/-! ## `pipe_open` -/

/-- C11, as stated, fails for the ReadWrite mode: with the `avio.h` values
(`URL_WRONLY` 1, `URL_RDWR` 2) the payload `abc` is not an integer, the mode
`URL_RDWR` is write-capable, and `pipe_open` binds the handle to descriptor 0,
not 1. -/
theorem pipe_open_read_write_default :
    linux_platform.URL_RDWR = 2 ∧
    is_integer_text ("abc").toList = false ∧
    (pipe_open linux_platform linux_sys null_context ("pipe:abc").toList 2 empty_os).h.priv_data
      = 0 ∧
    ¬ (pipe_open linux_platform linux_sys null_context ("pipe:abc").toList 2 empty_os).h.priv_data
      = 1 := by
  decide

/-- C11, amended: for every address whose payload behind `pipe:` is not, in
full, a base-10 integer, and for every `flags`, `pipe_open` returns 0 and binds
the handle to descriptor 1 when `flags & URL_WRONLY` is non-zero and to
descriptor 0 otherwise. -/
theorem pipe_open_default_descriptor {σ : Type} (k : Platform) (sys : Sys σ)
    (h : URLContext Int) (payload : List Char) (flags : Int) (os : σ)
    (hp : is_integer_text payload = false) :
    (pipe_open k sys h (pipe_scheme ++ payload) flags os).ret = 0 ∧
    (pipe_open k sys h (pipe_scheme ++ payload) flags os).h.priv_data
      = (if Int.land flags k.URL_WRONLY ≠ 0 then 1 else 0) := by
  obtain ⟨h1, h2⟩ := pipe_open_default k sys h payload flags os hp
  exact ⟨h2, by rw [h1]⟩

/-- C11, amended, at the inputs of the spec: `"pipe:abc"`, `"pipe:"` and
`"pipe:10ab"` with the `avio.h` values give descriptor 1 for Write (1) and
descriptor 0 for Read (0). -/
theorem pipe_open_default_descriptor_witness :
    pipe_scheme ++ ("abc").toList = ("pipe:abc").toList ∧
    is_integer_text ("abc").toList = false ∧
    is_integer_text ("").toList = false ∧
    is_integer_text ("10ab").toList = false ∧
    (pipe_open linux_platform linux_sys null_context (pipe_scheme ++ ("abc").toList) 1
      empty_os).h.priv_data = (if Int.land 1 linux_platform.URL_WRONLY ≠ 0 then 1 else 0) ∧
    (pipe_open linux_platform linux_sys null_context (pipe_scheme ++ ("abc").toList) 0
      empty_os).h.priv_data = (if Int.land 0 linux_platform.URL_WRONLY ≠ 0 then 1 else 0) ∧
    (pipe_open linux_platform linux_sys null_context (pipe_scheme ++ ("").toList) 1
      empty_os).h.priv_data = (if Int.land 1 linux_platform.URL_WRONLY ≠ 0 then 1 else 0) ∧
    (pipe_open linux_platform linux_sys null_context (pipe_scheme ++ ("10ab").toList) 1
      empty_os).h.priv_data = (if Int.land 1 linux_platform.URL_WRONLY ≠ 0 then 1 else 0) :=
  ⟨by decide, by decide, by decide, by decide,
   (pipe_open_default_descriptor linux_platform linux_sys null_context ("abc").toList 1
      empty_os (by decide)).2,
   (pipe_open_default_descriptor linux_platform linux_sys null_context ("abc").toList 0
      empty_os (by decide)).2,
   (pipe_open_default_descriptor linux_platform linux_sys null_context ("").toList 1
      empty_os (by decide)).2,
   (pipe_open_default_descriptor linux_platform linux_sys null_context ("10ab").toList 1
      empty_os (by decide)).2⟩

/-- C12: for an address `pipe:<d>` whose payload is the text of a base-10
integer `d` that is a value of `int`, and for every `flags`, `pipe_open`
returns 0 and binds the handle to descriptor `d`; the handle is the same for
any two values of `flags`. -/
theorem pipe_open_explicit_descriptor {σ : Type} (k : Platform) (sys : Sys σ)
    (h : URLContext Int) (neg : Bool) (ds : List Char) (flags : Int) (os : σ)
    (hd : IsDigits ds) (hr : IsInt32 (numeral_value neg ds)) :
    (pipe_open k sys h (pipe_scheme ++ numeral neg ds) flags os).ret = 0 ∧
    (pipe_open k sys h (pipe_scheme ++ numeral neg ds) flags os).h.priv_data
      = numeral_value neg ds ∧
    (∀ flags2 : Int,
      (pipe_open k sys h (pipe_scheme ++ numeral neg ds) flags2 os).h
        = (pipe_open k sys h (pipe_scheme ++ numeral neg ds) flags os).h) := by
  obtain ⟨h1, h2⟩ := pipe_open_numeral k sys h neg ds flags os hd hr
  refine ⟨h2, by rw [h1], ?_⟩
  intro flags2
  rw [h1, (pipe_open_numeral k sys h neg ds flags2 os hd hr).1]

/-- C12 at the input of the spec: `"pipe:2"` is the address built from the
numeral `2`, and opening it for writing (1) or reading (0) binds descriptor
2. -/
theorem pipe_open_explicit_descriptor_witness :
    pipe_scheme ++ numeral false ['2'] = ("pipe:2").toList ∧
    numeral_value false ['2'] = 2 ∧
    (pipe_open linux_platform linux_sys null_context (pipe_scheme ++ numeral false ['2']) 1
      empty_os).ret = 0 ∧
    (pipe_open linux_platform linux_sys null_context (pipe_scheme ++ numeral false ['2']) 1
      empty_os).h.priv_data = numeral_value false ['2'] ∧
    (pipe_open linux_platform linux_sys null_context (pipe_scheme ++ numeral false ['2']) 0
      empty_os).h
      = (pipe_open linux_platform linux_sys null_context (pipe_scheme ++ numeral false ['2']) 1
          empty_os).h :=
  have t := pipe_open_explicit_descriptor linux_platform linux_sys null_context false ['2'] 1
    empty_os (by decide) (by decide)
  ⟨by decide, by decide, t.1, t.2.1, t.2.2 0⟩

/-! ## `file_open` -/

/-- C13: `file_open` hands to `open` the address without a leading `file:`, the
access flags computed from `flags`, and the mode 0666.  The access flags are
`O_RDONLY` for Read, `O_CREAT|O_TRUNC|O_WRONLY` for Write and
`O_CREAT|O_TRUNC|O_RDWR` for ReadWrite (with `O_BINARY` added where the
platform defines it); for an arbitrary `flags` the `URL_RDWR` bit selects the
third, otherwise the `URL_WRONLY` bit the second, otherwise the first. -/
theorem file_open_mode_mapping {σ : Type} (k : Platform) (sys : Sys σ) (h : URLContext Int)
    (name path : List Char) (flags : Int) (os : σ) (hk : k.modes_distinct) :
    file_open k sys h name flags os
      = file_open_finish k h
          (sys.sys_open (strip_scheme name file_scheme) (file_access k flags) 438 os) ∧
    strip_scheme (file_scheme ++ path) file_scheme = path ∧
    (av_strstart name file_scheme = none → strip_scheme name file_scheme = name) ∧
    file_access k k.URL_RDONLY = add_binary k k.O_RDONLY ∧
    file_access k k.URL_WRONLY = add_binary k (Int.lor (Int.lor k.O_CREAT k.O_TRUNC) k.O_WRONLY) ∧
    file_access k k.URL_RDWR = add_binary k (Int.lor (Int.lor k.O_CREAT k.O_TRUNC) k.O_RDWR) ∧
    (Int.land flags k.URL_RDWR ≠ 0 →
      file_access k flags = add_binary k (Int.lor (Int.lor k.O_CREAT k.O_TRUNC) k.O_RDWR)) ∧
    (Int.land flags k.URL_RDWR = 0 → Int.land flags k.URL_WRONLY ≠ 0 →
      file_access k flags = add_binary k (Int.lor (Int.lor k.O_CREAT k.O_TRUNC) k.O_WRONLY)) ∧
    (Int.land flags k.URL_RDWR = 0 → Int.land flags k.URL_WRONLY = 0 →
      file_access k flags = add_binary k k.O_RDONLY) ∧
    (k.O_BINARY = none → ∀ access : Int, add_binary k access = access) := by
  obtain ⟨h1, h2, h3, h4, h5⟩ := hk
  refine ⟨rfl, strip_scheme_append _ _, ?_, ?_, ?_, ?_, ?_, ?_, ?_, ?_⟩
  · intro hn
    simp [strip_scheme, hn]
  · unfold file_access
    rw [if_neg (by rw [h4]; exact fun hx => hx rfl), if_neg (by rw [h5]; exact fun hx => hx rfl)]
  · unfold file_access
    rw [if_neg (by rw [h2]; exact fun hx => hx rfl), if_pos h3]
  · unfold file_access
    rw [if_pos h1]
  · intro hf
    unfold file_access
    rw [if_pos hf]
  · intro hf1 hf2
    unfold file_access
    rw [if_neg (by rw [hf1]; exact fun hx => hx rfl), if_pos hf2]
  · intro hf1 hf2
    unfold file_access
    rw [if_neg (by rw [hf1]; exact fun hx => hx rfl), if_neg (by rw [hf2]; exact fun hx => hx rfl)]
  · intro hb access
    unfold add_binary
    rw [hb]

/-- C13 with the `avio.h` and Linux values: Read (0) gives `O_RDONLY` = 0, Write
(1) gives `O_CREAT|O_TRUNC|O_WRONLY` = 577, ReadWrite (2) gives
`O_CREAT|O_TRUNC|O_RDWR` = 578, and `"file:/tmp/x"` is opened as `"/tmp/x"`. -/
theorem file_open_mode_mapping_witness :
    linux_platform.modes_distinct ∧
    file_open linux_platform linux_sys null_context ("file:/tmp/x").toList 2 empty_os
      = file_open_finish linux_platform null_context
          (linux_sys.sys_open (strip_scheme ("file:/tmp/x").toList file_scheme)
            (file_access linux_platform 2) 438 empty_os) ∧
    strip_scheme ("file:/tmp/x").toList file_scheme = ("/tmp/x").toList ∧
    file_access linux_platform linux_platform.URL_RDONLY = 0 ∧
    file_access linux_platform linux_platform.URL_WRONLY = 577 ∧
    file_access linux_platform linux_platform.URL_RDWR = 578 :=
  have t := file_open_mode_mapping linux_platform linux_sys null_context
    ("file:/tmp/x").toList ("/tmp/x").toList 2 empty_os (by decide)
  ⟨by decide, t.1, t.2.1, t.2.2.2.1, t.2.2.2.2.1, t.2.2.2.2.2.1⟩

/-- C14: with a negative `AVERROR(ENOENT)`, `file_open` returns a negative value
exactly when `open` has returned a negative descriptor; the value is then
`AVERROR(ENOENT)`, whatever made `open` fail, and the handle is the one passed
in; otherwise `file_open` returns 0 and the handle holds the descriptor that
`open` returned, `is_streamed` being untouched. -/
theorem file_open_error_collapse {σ : Type} (k : Platform) (sys : Sys σ) (h : URLContext Int)
    (name : List Char) (flags : Int) (os : σ) (hE : k.AVERROR_ENOENT < 0) :
    ((file_open k sys h name flags os).ret < 0 ↔
      (sys.sys_open (strip_scheme name file_scheme) (file_access k flags) 438 os).1 < 0) ∧
    ((sys.sys_open (strip_scheme name file_scheme) (file_access k flags) 438 os).1 < 0 →
      (file_open k sys h name flags os).ret = k.AVERROR_ENOENT ∧
      (file_open k sys h name flags os).h = h) ∧
    (0 ≤ (sys.sys_open (strip_scheme name file_scheme) (file_access k flags) 438 os).1 →
      (file_open k sys h name flags os).ret = 0 ∧
      (file_open k sys h name flags os).h.priv_data
        = (sys.sys_open (strip_scheme name file_scheme) (file_access k flags) 438 os).1 ∧
      (file_open k sys h name flags os).h.is_streamed = h.is_streamed) := by
  unfold file_open
  simp only
  generalize sys.sys_open (strip_scheme name file_scheme) (file_access k flags) 438 os = r
  unfold file_open_finish
  by_cases hr : r.1 < 0
  · rw [if_pos hr]
    refine ⟨⟨fun _ => hr, fun _ => hE⟩, fun _ => ⟨rfl, rfl⟩, fun hx => ?_⟩
    omega
  · rw [if_neg hr]
    refine ⟨⟨fun hx => ?_, fun hx => absurd hx hr⟩, fun hx => absurd hx hr,
      fun _ => ⟨rfl, rfl, rfl⟩⟩
    simp only at hx
    omega

/-- C14 in the model of the system calls: opening a locked path for writing
(EACCES) and opening a missing file for reading (ENOENT) both return
`AVERROR(ENOENT)` = -2 and leave the handle alone; opening `"/tmp/x"` for
writing returns 0 and stores the descriptor 3. -/
theorem file_open_error_collapse_witness :
    linux_platform.AVERROR_ENOENT < 0 ∧
    (linux_sys.sys_open (strip_scheme ("file:/locked").toList file_scheme)
      (file_access linux_platform 1) 438 empty_os).1 < 0 ∧
    (file_open linux_platform linux_sys null_context ("file:/locked").toList 1 empty_os).ret
      = linux_platform.AVERROR_ENOENT ∧
    (file_open linux_platform linux_sys null_context ("file:/locked").toList 1 empty_os).h
      = null_context ∧
    (file_open linux_platform linux_sys null_context ("file:/missing").toList 0 empty_os).ret
      = -2 ∧
    (file_open linux_platform linux_sys null_context ("file:/tmp/x").toList 1 empty_os).ret
      = 0 ∧
    (file_open linux_platform linux_sys null_context ("file:/tmp/x").toList 1
      empty_os).h.priv_data = 3 :=
  have t := file_open_error_collapse linux_platform linux_sys null_context
    ("file:/locked").toList 1 empty_os (by decide)
  ⟨by decide, by decide, (t.2.1 (by decide)).1, (t.2.1 (by decide)).2,
   by decide, by decide, by decide⟩

/-! ## The streamed flag and the protocol tables -/

/-- C15: from contexts whose `is_streamed` is 0, `file_open` (successful or
not) and a `memory_open` that returns leave `is_streamed` at 0, and `pipe_open`
sets it to 1 for every address and every `flags`. -/
theorem streamed_flag_per_backend {σ α : Type} (k : Platform) (sys : Sys σ)
    (h hp : URLContext Int) (h0 : URLContext α) (name mname pname : List Char)
    (flags mflags pflags r : Int) (hm : URLContext MemoryStreamDefinition) (os : σ)
    (hs : h.is_streamed = 0) (hs0 : h0.is_streamed = 0)
    (hmo : memory_open h0 mname mflags = some (r, hm)) :
    (file_open k sys h name flags os).h.is_streamed = 0 ∧
    hm.is_streamed = 0 ∧
    (pipe_open k sys hp pname pflags os).h.is_streamed = 1 := by
  refine ⟨?_, ?_, rfl⟩
  · unfold file_open file_open_finish
    simp only
    split_ifs
    · exact hs
    · exact hs
  · rw [(memory_open_some h0 mname mflags r hm hmo).2.2.2.2, hs0]

/-- C15 at concrete inputs: `"file:/tmp/x"` opened for writing and
`"memory:0|10"` leave the flag at 0, `"pipe:2"` sets it to 1. -/
theorem streamed_flag_per_backend_witness :
    (file_open linux_platform linux_sys null_context ("file:/tmp/x").toList 1
      empty_os).ret = 0 ∧
    (file_open linux_platform linux_sys null_context ("file:/tmp/x").toList 1
      empty_os).h.is_streamed = 0 ∧
    (⟨⟨0, 0, 10⟩, 0⟩ : URLContext MemoryStreamDefinition).is_streamed = 0 ∧
    (pipe_open linux_platform linux_sys null_context ("pipe:2").toList 0
      empty_os).h.is_streamed = 1 :=
  have t := streamed_flag_per_backend linux_platform linux_sys null_context null_context
    fresh_context ("file:/tmp/x").toList ("memory:0|10").toList ("pipe:2").toList 1 0 0 0
    ⟨⟨0, 0, 10⟩, 0⟩ empty_os (by decide) (by decide) (by decide)
  ⟨by decide, t.1, t.2.1, t.2.2⟩

/-- C16, as stated, fails: the seek and close entries of `pipe_protocol` are
null, not stubs. -/
theorem pipe_protocol_entries_missing :
    (pipe_protocol OS).url_seek.isNone = true ∧ (pipe_protocol OS).url_close.isNone = true :=
  ⟨rfl, rfl⟩

/-- C16, amended: `file_protocol` and `memory_protocol` provide all five
operations, the write entry of `memory_protocol` being `memory_write`, which
returns -1 for every input; `pipe_protocol` provides open (`pipe_open`), read
(`file_read`) and write (`file_write`), and its seek and close entries are
null. -/
theorem protocol_tables (σ α : Type) :
    ((file_protocol σ).url_open = some file_open ∧
      (file_protocol σ).url_read = some file_read ∧
      (file_protocol σ).url_write = some file_write ∧
      (file_protocol σ).url_seek = some file_seek ∧
      (file_protocol σ).url_close = some file_close) ∧
    ((memory_protocol α).url_open = some memory_open ∧
      (memory_protocol α).url_read = some memory_read ∧
      (memory_protocol α).url_write = some memory_write ∧
      (memory_protocol α).url_seek = some memory_seek ∧
      (memory_protocol α).url_close = some memory_close) ∧
    (∀ (region : Int → Byte) (h : URLContext MemoryStreamDefinition) (mem : Int → Byte)
      (buf size : Int), (memory_write region h mem buf size).ret = -1) ∧
    ((pipe_protocol σ).url_open = some pipe_open ∧
      (pipe_protocol σ).url_read = some file_read ∧
      (pipe_protocol σ).url_write = some file_write ∧
      (pipe_protocol σ).url_seek = none ∧
      (pipe_protocol σ).url_close = none) :=
  ⟨⟨rfl, rfl, rfl, rfl, rfl⟩, ⟨rfl, rfl, rfl, rfl, rfl⟩, fun _ _ _ _ _ => rfl,
   ⟨rfl, rfl, rfl, rfl, rfl⟩⟩

/-! ## The file round trip -/

/-- C17: `file_read`, `file_write` and `file_seek` hand their descriptor,
buffer, size, offset and `whence` on to `read`, `write` and `lseek` (a
descriptor that is an `int` and a size from 0 to `INT_MAX` are handed on
unchanged), for every implementation of the system calls; and in the model of
the system calls on regular files, after a successful `file_open` in ReadWrite
mode, `file_write` of `N` bytes (`0 <= N <= 4096`) returns `N`, `file_seek` to
offset 0 from the start returns 0, and `file_read` of `N` bytes returns `N` and
delivers the `N` bytes that were written. -/
theorem file_round_trip (os : OS) (h : URLContext Int) (name : List Char)
    (mem mem2 : Int → Byte) (buf buf2 N : Int) (hN0 : 0 ≤ N) (hN : N ≤ 4096)
    (ho : (round_trip linux_platform linux_sys h name linux_platform.URL_RDWR mem mem2
      buf buf2 N os).open_ret = 0) :
    (round_trip linux_platform linux_sys h name linux_platform.URL_RDWR mem mem2
      buf buf2 N os).write_ret = N ∧
    (round_trip linux_platform linux_sys h name linux_platform.URL_RDWR mem mem2
      buf buf2 N os).seek_ret = 0 ∧
    (round_trip linux_platform linux_sys h name linux_platform.URL_RDWR mem mem2
      buf buf2 N os).read_ret = N ∧
    (∀ i : Nat, (i : Int) < N →
      (round_trip linux_platform linux_sys h name linux_platform.URL_RDWR mem mem2
        buf buf2 N os).mem (buf2 + i) = mem (buf + i)) ∧
    (∀ (τ : Type) (sys : Sys τ) (g : URLContext Int) (m : Int → Byte) (b n pos whence : Int)
      (x : τ),
      file_read sys g m b n x
        = { ret := wrapInt32 (sys.sys_read (wrapInt32 g.priv_data) m b (to_size_t n) x).1,
            mem := (sys.sys_read (wrapInt32 g.priv_data) m b (to_size_t n) x).2.1,
            os := (sys.sys_read (wrapInt32 g.priv_data) m b (to_size_t n) x).2.2 } ∧
      file_write sys g m b n x
        = { ret := wrapInt32 (sys.sys_write (wrapInt32 g.priv_data) m b (to_size_t n) x).1,
            mem := m,
            os := (sys.sys_write (wrapInt32 g.priv_data) m b (to_size_t n) x).2 } ∧
      file_seek sys g pos whence x = sys.sys_lseek (wrapInt32 g.priv_data) pos whence x ∧
      (IsInt32 g.priv_data → wrapInt32 g.priv_data = g.priv_data) ∧
      (0 ≤ n → n ≤ 2147483647 → to_size_t n = n)) := by
  have hacc : file_access linux_platform linux_platform.URL_RDWR = 578 := by decide
  have hfo : file_open linux_platform linux_sys h name linux_platform.URL_RDWR os
      = file_open_finish linux_platform h
          (linux_open (strip_scheme name file_scheme) 578 438 os) := by
    unfold file_open
    rw [hacc]
    rfl
  generalize strip_scheme name file_scheme = p at hfo
  have hok : ¬ (linux_open p 578 438 os).1 < 0 := by
    intro hneg
    have : (round_trip linux_platform linux_sys h name linux_platform.URL_RDWR mem mem2
      buf buf2 N os).open_ret = -2 := by
      show (file_open linux_platform linux_sys h name linux_platform.URL_RDWR os).ret = -2
      rw [hfo, file_open_finish, if_pos hneg]
      rfl
    rw [this] at ho
    exact absurd ho (by decide)
  obtain ⟨hfd, hopen⟩ := linux_open_read_write p os hok
  have hfo2 : file_open linux_platform linux_sys h name linux_platform.URL_RDWR os
      = { ret := 0, h := { priv_data := (os.next_fd : Int), is_streamed := h.is_streamed },
          os := (linux_open p 578 438 os).2 } := by
    rw [hfo, file_open_finish, if_neg hok, hopen]
  have hw : wrapInt32 (os.next_fd : Int) = os.next_fd :=
    wrapInt32_eq_self ⟨by omega, by omega⟩
  have ht : to_size_t N = N := by
    unfold to_size_t
    omega
  have hwN : wrapInt32 N = N := wrapInt32_eq_self ⟨by omega, by omega⟩
  obtain ⟨r1, r2, r3, r4⟩ := linux_round_trip (linux_open p 578 438 os).2 (os.next_fd : Int) p
    mem mem2 buf buf2 N hN0 (by rw [hopen]; simp) (by rw [hopen]; simp)
  refine ⟨?_, ?_, ?_, ?_, ?_⟩
  · simp only [round_trip, hfo2]
    simp only [file_write, hw, ht, linux_sys]
    rw [r1, hwN]
  · simp only [round_trip, hfo2]
    simp only [file_write, file_seek, hw, ht, linux_sys]
    exact r2
  · simp only [round_trip, hfo2]
    simp only [file_write, file_seek, file_read, hw, ht, linux_sys]
    rw [r3, hwN]
  · simp only [round_trip, hfo2]
    simp only [file_write, file_seek, file_read, hw, ht, linux_sys]
    exact r4
  · intro τ sys g m b n pos whence x
    refine ⟨rfl, rfl, rfl, fun hg => wrapInt32_eq_self hg, fun h0 h1 => ?_⟩
    unfold to_size_t
    omega

/-- C17 at a concrete input: on an empty file system `"file:/tmp/x"` is opened
in ReadWrite mode (2), the four bytes at addresses 5..8 are written, and after
the seek to the start the read of four bytes returns 4 and delivers them. -/
theorem file_round_trip_witness :
    (round_trip linux_platform linux_sys null_context ("file:/tmp/x").toList
      linux_platform.URL_RDWR sample_region zero_mem 5 100 4 empty_os).open_ret = 0 ∧
    (round_trip linux_platform linux_sys null_context ("file:/tmp/x").toList
      linux_platform.URL_RDWR sample_region zero_mem 5 100 4 empty_os).write_ret = 4 ∧
    (round_trip linux_platform linux_sys null_context ("file:/tmp/x").toList
      linux_platform.URL_RDWR sample_region zero_mem 5 100 4 empty_os).seek_ret = 0 ∧
    (round_trip linux_platform linux_sys null_context ("file:/tmp/x").toList
      linux_platform.URL_RDWR sample_region zero_mem 5 100 4 empty_os).read_ret = 4 ∧
    (round_trip linux_platform linux_sys null_context ("file:/tmp/x").toList
      linux_platform.URL_RDWR sample_region zero_mem 5 100 4 empty_os).mem (100 + (3 : Nat))
      = sample_region (5 + (3 : Nat)) :=
  have t := file_round_trip empty_os null_context ("file:/tmp/x").toList sample_region
    zero_mem 5 100 4 (by decide) (by decide) (by decide)
  ⟨by decide, t.1, t.2.1, t.2.2.1, t.2.2.2.1 3 (by decide)⟩

end AVFormat
